import Mathlib

/-!
Verification of the trace data model and wire-format mapping of
`src/types/traces.rs` (Parity ad-hoc trace API types).

The Rust source defines serde-derived (de)serialization for `TraceType`,
`BlockTrace`, `ChangedType`, `Diff`, `AccountDiff`, `StateDiff`,
`TransactionTrace`, `VMTrace`, `VMOperation`, `VMExecutedOperation`,
`MemoryDiff` and `StorageDiff`.  This file shallowly embeds those types and
the wire mapping that `#[derive(Serialize, Deserialize)]` generates for them
over a JSON value tree, and proves the specified properties.

Conventions of the embedding:
  - JSON values are the inductive `Json`; object fields are listed in the
    order the serializer emits them (struct declaration order; map entries
    in ascending key order, as for `BTreeMap`).
  - Decoding works on a parsed `Json` value, as `serde_json::from_str`
    conceptually parses and then visits the value.  All decode failures of
    the derived code are data errors; they are modelled by the single
    error constructor `DecodeError.schemaViolation`.
  - Rust `usize` and `u64` fields are embedded as `Nat`; the claims under
    verification do not exercise machine-width overflow, and the JSON
    number representation used by the serializer is the decimal value.
  - The primitive scalar codecs (`Bytes`, `H160`, `H256`, `U256`) and the
    `Action`/`ActionType`/`Res` model live outside the staged source; they
    are modelled from the spec where marked.
-/

namespace TraceModel

/-- A JSON-like wire value: null, booleans, unsigned numbers, strings,
arrays and objects.  Object fields carry their emission order. -/
inductive Json where
  | null
  | bool (b : Bool)
  | num (n : Nat)
  | str (s : String)
  | arr (xs : List Json)
  | obj (fs : List (String × Json))

/-- Decode failures of the derived deserializers.  Every failure the
derived code can produce is a serde data error (wrong shape, unknown tag,
missing field, bad hex); the spec's name for this class is
`SchemaViolation`.  No other error kind exists in the code: in particular
there is no depth-limit error and no encoding-time error. -/
inductive DecodeError where
  | schemaViolation (msg : String)

instance : DecidableEq DecodeError := fun a b =>
  match a, b with
  | .schemaViolation m1, .schemaViolation m2 =>
    if h : m1 = m2 then .isTrue (by rw [h]) else .isFalse (by simp [h])

theorem exceptBind_ok {α β : Type} (a : α) (f : α → Except DecodeError β) :
    (Except.ok a : Except DecodeError α) >>= f = f a := rfl

theorem exceptBind_err {α β : Type} (e : DecodeError) (f : α → Except DecodeError β) :
    (Except.error e : Except DecodeError α) >>= f = Except.error e := rfl

/-- Field lookup in a JSON object: the value under the first occurrence of
the key, if any. -/
def jlookup (fs : List (String × Json)) (k : String) : Option Json :=
  match fs with
  | [] => none
  | (k', v) :: tl => if k' = k then some v else jlookup tl k

theorem jlookup_eq_none_of_not_mem (fs : List (String × Json)) (k : String)
    (h : k ∉ fs.map Prod.fst) : jlookup fs k = none := by
  induction fs with
  | nil => rfl
  | cons p tl ih =>
    simp only [List.map_cons, List.mem_cons, not_or] at h
    simp only [jlookup]
    rw [if_neg, ih h.2]
    exact fun hk => h.1 hk.symm

/-- Escape-free JSON string rendering of the characters of a string.  The
strings these encoders emit (hex strings, tag characters, field names,
producer-supplied error text in the claims at hand) contain no characters
that JSON requires to be escaped, so plain quoting renders them. -/
def jRenderStr (s : String) : String := "\"" ++ s ++ "\""

mutual

/-- Deterministic textual rendering of a JSON value, for byte-identity
statements: two values render to the same bytes exactly when they are the
same tree. -/
def jRender : Json → String
  | .null => "null"
  | .bool b => if b then "true" else "false"
  | .num n => Nat.repr n
  | .str s => jRenderStr s
  | .arr xs => "[" ++ jRenderArr xs ++ "]"
  | .obj fs => "\x7b" ++ jRenderObj fs ++ "\x7d"

def jRenderArr : List Json → String
  | [] => ""
  | [x] => jRender x
  | x :: y :: tl => jRender x ++ "," ++ jRenderArr (y :: tl)

def jRenderObj : List (String × Json) → String
  | [] => ""
  | [(k, v)] => jRenderStr k ++ ":" ++ jRender v
  | (k, v) :: p :: tl => jRenderStr k ++ ":" ++ jRender v ++ "," ++ jRenderObj (p :: tl)

end

/-- Lowercase hex digit character for a value below 16 (as the external
primitive codec emits: `0`..`9`, `a`..`f`). -/
def hexDigitChar (n : Nat) : Char :=
  if n < 10 then Char.ofNat (48 + n) else Char.ofNat (87 + n)

/-- Value of a hex digit character as a bounded digit; accepts `0`..`9`,
`a`..`f`. -/
def hexValF (c : Char) : Option (Fin 16) :=
  if h : 48 ≤ c.toNat ∧ c.toNat ≤ 57 then some ⟨c.toNat - 48, by omega⟩
  else if h2 : 97 ≤ c.toNat ∧ c.toNat ≤ 102 then some ⟨c.toNat - 87, by omega⟩
  else none

/-- Value of a hex digit character; accepts `0`..`9`, `a`..`f`. -/
def hexVal (c : Char) : Option Nat :=
  (hexValF c).map Fin.val

theorem hexValF_hexDigitChar : ∀ d : Fin 16, hexValF (hexDigitChar d.val) = some d := by
  decide

theorem hexVal_hexDigitChar : ∀ d : Fin 16, hexVal (hexDigitChar d.val) = some d.val := by
  decide

theorem hexVal_lt {c : Char} {d : Nat} (h : hexVal c = some d) : d < 16 := by
  unfold hexVal at h
  cases hf : hexValF c with
  | none => rw [hf] at h; exact absurd h (by simp)
  | some v =>
    rw [hf] at h
    simp at h
    omega

/-- Big-endian hex digits of a number, most significant first, with no
leading zeros (empty for zero).  The first argument is structural fuel;
`natToHex` instantiates it adequately. -/
def natToHexAux : Nat → Nat → List Char
  | _, 0 => []
  | 0, _ + 1 => []
  | fuel + 1, n + 1 => natToHexAux fuel ((n + 1) / 16) ++ [hexDigitChar ((n + 1) % 16)]

def natToHex (n : Nat) : List Char := natToHexAux n n

theorem natToHexAux_fuel (n : Nat) : ∀ fuel fuel' : Nat, n ≤ fuel → n ≤ fuel' →
    natToHexAux fuel n = natToHexAux fuel' n := by
  induction n using Nat.strong_induction_on with
  | _ n ih =>
    intro fuel fuel' hf hf'
    match n, fuel, fuel' with
    | 0, f, f' => cases f <;> cases f' <;> rfl
    | m + 1, f + 1, f' + 1 =>
      simp only [natToHexAux]
      rw [ih ((m + 1) / 16) (Nat.div_lt_self (Nat.succ_pos m) (by norm_num)) f f'
        (by omega) (by omega)]

theorem natToHex_succ (n : Nat) :
    natToHex (n + 1) = natToHex ((n + 1) / 16) ++ [hexDigitChar ((n + 1) % 16)] := by
  show natToHexAux (n + 1) (n + 1) = _
  match n with
  | 0 => rfl
  | m + 1 =>
    simp only [natToHexAux, natToHex]
    rw [natToHexAux_fuel ((m + 2) / 16) (m + 1) ((m + 2) / 16)
      (by omega) (le_refl _)]

theorem natToHex_ne_nil {n : Nat} (h : 0 < n) : natToHex n ≠ [] := by
  match n, h with
  | m + 1, _ => rw [natToHex_succ]; simp

/-- Big-endian hex digit accumulator parse: folds digit values into `acc`,
failing on the first non-hex character. -/
def parseHexAux : List Char → Nat → Option Nat
  | [], acc => some acc
  | c :: cs, acc =>
    match hexVal c with
    | some d => parseHexAux cs (acc * 16 + d)
    | none => none

theorem parseHexAux_append (xs ys : List Char) (acc : Nat) :
    parseHexAux (xs ++ ys) acc =
      match parseHexAux xs acc with
      | some a => parseHexAux ys a
      | none => none := by
  induction xs generalizing acc with
  | nil => rfl
  | cons c tl ih =>
    simp only [List.cons_append, parseHexAux]
    cases hexVal c with
    | some d => exact ih (acc * 16 + d)
    | none => rfl

theorem parseHexAux_natToHex (n : Nat) : ∀ acc : Nat,
    parseHexAux (natToHex n) acc = some (acc * 16 ^ (natToHex n).length + n) := by
  induction n using Nat.strong_induction_on with
  | _ n ih =>
    intro acc
    match n with
    | 0 => simp [natToHex, natToHexAux, parseHexAux]
    | m + 1 =>
      rw [natToHex_succ]
      rw [parseHexAux_append]
      have hq : (m + 1) / 16 < m + 1 := Nat.div_lt_self (Nat.succ_pos m) (by norm_num)
      rw [ih ((m + 1) / 16) hq acc]
      have hr : (m + 1) % 16 < 16 := Nat.mod_lt _ (by norm_num)
      simp only [parseHexAux, hexVal_hexDigitChar ⟨(m + 1) % 16, hr⟩]
      have hdm : 16 * ((m + 1) / 16) + (m + 1) % 16 = m + 1 := Nat.div_add_mod (m + 1) 16
      rw [List.length_append, List.length_singleton, pow_succ]
      congr 1
      ring_nf
      omega

theorem parseHexAux_replicate_zero (k : Nat) (xs : List Char) :
    parseHexAux (List.replicate k '0' ++ xs) 0 = parseHexAux xs 0 := by
  induction k with
  | zero => rfl
  | succ m ih =>
    simp only [List.replicate_succ, List.cons_append, parseHexAux]
    have h0 : hexVal '0' = some 0 := by decide
    rw [h0]
    exact ih

/-- Fixed-width (zero-padded) big-endian lowercase hex digits, as the
external codec renders 20-byte addresses (width 40) and 32-byte words
(width 64). -/
def hexFixed (w n : Nat) : List Char :=
  List.replicate (w - (natToHex n).length) '0' ++ natToHex n

theorem parseHexAux_hexFixed (w n : Nat) : parseHexAux (hexFixed w n) 0 = some n := by
  unfold hexFixed
  rw [parseHexAux_replicate_zero, parseHexAux_natToHex]
  simp

theorem hexFixed_ne_nil {w n : Nat} (hw : 0 < w) : hexFixed w n ≠ [] := by
  unfold hexFixed
  match n with
  | 0 => simp [natToHex, natToHexAux]; omega
  | m + 1 =>
    intro hcontra
    exact natToHex_ne_nil (Nat.succ_pos m) (List.append_eq_nil.mp hcontra).2

/-- Parse of the character list of a `0x`-prefixed big-endian hex
integer: requires the prefix and at least one hex digit; rejects any
non-hex digit character. -/
def parseHexChars : List Char → Option Nat
  | c0 :: c1 :: rest =>
    if c0 = '0' ∧ c1 = 'x' ∧ rest ≠ [] then parseHexAux rest 0 else none
  | _ => none

/-- Modelled from the spec: "Hex-encoded big-endian unsigned integers for
256-bit integer fields" with a `0x` prefix; the minimal (unpadded) form,
`0x0` for zero.  The primitive codec itself is an external collaborator
the spec declares assumed-correct and out of scope. -/
def hexStrMin (n : Nat) : String :=
  String.mk ('0' :: 'x' :: (if n = 0 then ['0'] else natToHex n))

/-- Modelled from the spec: "Hex-encoded fixed-width byte strings for
20-byte addresses, 32-byte hashes" — `0x` followed by `w` zero-padded
lowercase hex digits (`w` = 40 for addresses, 64 for 32-byte words). -/
def hexStrFixed (w n : Nat) : String :=
  String.mk ('0' :: 'x' :: hexFixed w n)

/-- Modelled from the spec: parse of a `0x`-prefixed hex integer string. -/
def parseHexStr (s : String) : Option Nat :=
  parseHexChars s.data

theorem parseHexStr_hexStrMin (n : Nat) : parseHexStr (hexStrMin n) = some n := by
  unfold parseHexStr hexStrMin
  match n with
  | 0 => rfl
  | m + 1 =>
    show parseHexChars ('0' :: 'x' :: (if m + 1 = 0 then ['0'] else natToHex (m + 1))) = _
    rw [if_neg (Nat.succ_ne_zero m)]
    simp only [parseHexChars]
    rw [if_pos ⟨trivial, trivial, natToHex_ne_nil (Nat.succ_pos m)⟩, parseHexAux_natToHex]
    simp

theorem parseHexStr_hexStrFixed {w : Nat} (n : Nat) (hw : 0 < w) :
    parseHexStr (hexStrFixed w n) = some n := by
  unfold parseHexStr hexStrFixed
  show parseHexChars ('0' :: 'x' :: hexFixed w n) = some n
  simp only [parseHexChars]
  rw [if_pos ⟨trivial, trivial, hexFixed_ne_nil hw⟩, parseHexAux_hexFixed]

/-- One byte, as in the external byte-string type. -/
abbrev Byte := Fin 256

/-- Hex digit characters of a byte string, two lowercase digits per byte,
high digit first. -/
def bytesToHex : List Byte → List Char
  | [] => []
  | b :: tl => hexDigitChar (b.val / 16) :: hexDigitChar (b.val % 16) :: bytesToHex tl

/-- Parse pairs of hex digit characters into bytes; fails on a non-hex
character or an odd number of digits. -/
def hexToBytes : List Char → Option (List Byte)
  | [] => some []
  | [_] => none
  | c1 :: c2 :: rest =>
    match hexValF c1, hexValF c2, hexToBytes rest with
    | some d1, some d2, some bs =>
      some ((⟨d1.val * 16 + d2.val, by
        have h1 := d1.isLt
        have h2 := d2.isLt
        omega⟩ : Byte) :: bs)
    | _, _, _ => none

theorem hexToBytes_bytesToHex (l : List Byte) : hexToBytes (bytesToHex l) = some l := by
  induction l with
  | nil => rfl
  | cons b tl ih =>
    have hd : b.val / 16 < 16 := by omega
    have hm : b.val % 16 < 16 := by omega
    have h1 : hexValF (hexDigitChar (b.val / 16)) = some ⟨b.val / 16, hd⟩ :=
      hexValF_hexDigitChar ⟨b.val / 16, hd⟩
    have h2 : hexValF (hexDigitChar (b.val % 16)) = some ⟨b.val % 16, hm⟩ :=
      hexValF_hexDigitChar ⟨b.val % 16, hm⟩
    simp only [bytesToHex, hexToBytes, h1, h2, ih]
    simp only [Option.some.injEq, List.cons.injEq]
    refine ⟨Fin.ext ?_, trivial⟩
    show b.val / 16 * 16 + b.val % 16 = b.val
    omega

/-- The external variable-length byte-string type (`Bytes`): a sequence of
bytes.  Modelled from the spec: its wire form is a `0x`-prefixed lowercase
hex string, two digits per byte (`0x` alone for the empty string). -/
abbrev Bytes := List Byte

def encodeBytes (bs : Bytes) : Json :=
  Json.str (String.mk ('0' :: 'x' :: bytesToHex bs))

/-- Decode of a byte-string body (without the JSON string wrapper). -/
def decodeBytesChars : List Char → Except DecodeError Bytes
  | c0 :: c1 :: rest =>
    if c0 = '0' ∧ c1 = 'x' then
      match hexToBytes rest with
      | some bs => .ok bs
      | none => .error (.schemaViolation "invalid hex in byte string")
    else .error (.schemaViolation "byte string must be 0x-prefixed hex")
  | _ => .error (.schemaViolation "byte string must be 0x-prefixed hex")

def decodeBytes : Json → Except DecodeError Bytes
  | .str s => decodeBytesChars s.data
  | _ => .error (.schemaViolation "expected a hex string")

theorem decodeBytes_encodeBytes (bs : Bytes) : decodeBytes (encodeBytes bs) = .ok bs := by
  show decodeBytesChars ('0' :: 'x' :: bytesToHex bs) = .ok bs
  simp only [decodeBytesChars]
  rw [if_pos ⟨trivial, trivial⟩]
  simp only [hexToBytes_bytesToHex]

/-- Key order on association-list entries (entries ordered by key). -/
def keyLT {V : Type} (p q : Nat × V) : Prop := p.1 < q.1

instance {V : Type} : IsAntisymm (Nat × V) keyLT :=
  ⟨fun _ _ h1 h2 => absurd (lt_trans h1 h2) (lt_irrefl _)⟩

instance {V : Type} (p q : Nat × V) : Decidable (keyLT p q) :=
  inferInstanceAs (Decidable (p.1 < q.1))

/-- Shallow embedding of `BTreeMap` with `H160`/`H256` keys (embedded as
their numeric value): an association list kept in strictly ascending key
order.  `insertSorted` inserts at the ordered position and replaces the
value of an already-present key, as `BTreeMap::insert` does. -/
def insertSorted {V : Type} (k : Nat) (v : V) : List (Nat × V) → List (Nat × V)
  | [] => [(k, v)]
  | (k', v') :: tl =>
    if k < k' then (k, v) :: (k', v') :: tl
    else if k = k' then (k, v) :: tl
    else (k', v') :: insertSorted k v tl

/-- Map built by inserting the pairs of a list left to right into the
empty map (the `FromIterator` semantics of `BTreeMap`: a later duplicate
key overwrites an earlier one). -/
def mapFromList {V : Type} (l : List (Nat × V)) : List (Nat × V) :=
  l.foldl (fun m p => insertSorted p.1 p.2 m) []

theorem mem_insertSorted {V : Type} (k : Nat) (v : V) (m : List (Nat × V))
    (hm : m.Pairwise keyLT) (q : Nat × V) :
    q ∈ insertSorted k v m ↔ q = (k, v) ∨ (q ∈ m ∧ q.1 ≠ k) := by
  induction m with
  | nil => simp [insertSorted]
  | cons hd tl ih =>
    obtain ⟨k', v'⟩ := hd
    rw [List.pairwise_cons] at hm
    have hhd := hm.1
    have htl := hm.2
    simp only [insertSorted]
    split_ifs with h1 h2
    · -- k is below the head key
      simp only [List.mem_cons]
      constructor
      · rintro (hq | hq | hq)
        · exact Or.inl hq
        · refine Or.inr ⟨Or.inl hq, ?_⟩
          rw [hq]
          show k' ≠ k
          omega
        · refine Or.inr ⟨Or.inr hq, ?_⟩
          have := hhd q hq
          unfold keyLT at this
          omega
      · rintro (hq | ⟨hq | hq, hne⟩)
        · exact Or.inl hq
        · exact Or.inr (Or.inl hq)
        · exact Or.inr (Or.inr hq)
    · -- k matches the head key: the head entry is replaced
      simp only [List.mem_cons]
      constructor
      · rintro (hq | hq)
        · exact Or.inl hq
        · refine Or.inr ⟨Or.inr hq, ?_⟩
          have := hhd q hq
          unfold keyLT at this
          omega
      · rintro (hq | ⟨hq | hq, hne⟩)
        · exact Or.inl hq
        · rw [hq] at hne
          exact absurd h2.symm hne
        · exact Or.inr hq
    · -- k is above the head key
      simp only [List.mem_cons, ih htl]
      constructor
      · rintro (hq | hq | ⟨hq, hne⟩)
        · refine Or.inr ⟨Or.inl hq, ?_⟩
          rw [hq]
          show k' ≠ k
          omega
        · exact Or.inl hq
        · exact Or.inr ⟨Or.inr hq, hne⟩
      · rintro (hq | ⟨hq | hq, hne⟩)
        · exact Or.inr (Or.inl hq)
        · exact Or.inl hq
        · exact Or.inr (Or.inr ⟨hq, hne⟩)

theorem pairwise_insertSorted {V : Type} (k : Nat) (v : V) (m : List (Nat × V))
    (hm : m.Pairwise keyLT) : (insertSorted k v m).Pairwise keyLT := by
  induction m with
  | nil => simp [insertSorted, List.pairwise_cons]
  | cons hd tl ih =>
    obtain ⟨k', v'⟩ := hd
    rw [List.pairwise_cons] at hm
    have hhd := hm.1
    have htl := hm.2
    simp only [insertSorted]
    split_ifs with h1 h2
    · rw [List.pairwise_cons]
      refine ⟨?_, List.pairwise_cons.mpr ⟨hhd, htl⟩⟩
      intro q hq
      rcases List.mem_cons.mp hq with hq | hq
      · rw [hq]; exact h1
      · have := hhd q hq
        unfold keyLT at this ⊢
        omega
    · rw [List.pairwise_cons]
      refine ⟨?_, htl⟩
      intro q hq
      have := hhd q hq
      unfold keyLT at this ⊢
      omega
    · rw [List.pairwise_cons]
      refine ⟨?_, ih htl⟩
      intro q hq
      rcases (mem_insertSorted k v tl htl q).mp hq with hq | hq
      · rw [hq]
        show k' < k
        omega
      · exact hhd q hq.1

theorem pairwise_foldl_insertSorted {V : Type} (l : List (Nat × V)) :
    ∀ acc : List (Nat × V), acc.Pairwise keyLT →
      (l.foldl (fun m p => insertSorted p.1 p.2 m) acc).Pairwise keyLT := by
  induction l with
  | nil => exact fun acc h => h
  | cons p tl ih =>
    intro acc hacc
    exact ih _ (pairwise_insertSorted p.1 p.2 acc hacc)

theorem pairwise_mapFromList {V : Type} (l : List (Nat × V)) :
    (mapFromList l).Pairwise keyLT :=
  pairwise_foldl_insertSorted l [] List.Pairwise.nil

theorem mem_foldl_insertSorted {V : Type} (l : List (Nat × V)) :
    ∀ acc : List (Nat × V), acc.Pairwise keyLT →
      (l.map Prod.fst).Nodup →
      (∀ key ∈ acc.map Prod.fst, key ∉ l.map Prod.fst) →
      ∀ q : Nat × V,
        (q ∈ l.foldl (fun m p => insertSorted p.1 p.2 m) acc ↔ q ∈ acc ∨ q ∈ l) := by
  induction l with
  | nil => simp
  | cons p tl ih =>
    intro acc hacc hnd hdisj q
    obtain ⟨k, v⟩ := p
    simp only [List.map_cons, List.nodup_cons] at hnd
    have hknotin : k ∉ tl.map Prod.fst := hnd.1
    have hacc' : (insertSorted k v acc).Pairwise keyLT := pairwise_insertSorted k v acc hacc
    have hdisj' : ∀ key ∈ (insertSorted k v acc).map Prod.fst, key ∉ tl.map Prod.fst := by
      intro key hkey
      rcases List.mem_map.mp hkey with ⟨q', hq', hq'key⟩
      rcases (mem_insertSorted k v acc hacc q').mp hq' with hq'' | hq''
      · rw [← hq'key, hq'']
        exact hknotin
      · have : key ∈ acc.map Prod.fst := List.mem_map.mpr ⟨q', hq''.1, hq'key⟩
        intro hc
        exact hdisj key this (List.mem_cons_of_mem _ hc)
    simp only [List.foldl_cons]
    rw [ih (insertSorted k v acc) hacc' hnd.2 hdisj' q]
    rw [mem_insertSorted k v acc hacc q]
    constructor
    · rintro ((hq | hq) | hq)
      · exact Or.inr (by rw [hq]; exact List.mem_cons_self _ _)
      · exact Or.inl hq.1
      · exact Or.inr (List.mem_cons_of_mem _ hq)
    · rintro (hq | hq)
      · refine Or.inl (Or.inr ⟨hq, ?_⟩)
        intro hc
        have : q.1 ∈ acc.map Prod.fst := List.mem_map.mpr ⟨q, hq, rfl⟩
        exact hdisj q.1 this (by rw [hc]; exact List.mem_cons_self _ _)
      · rcases List.mem_cons.mp hq with hq' | hq'
        · exact Or.inl (Or.inl hq')
        · exact Or.inr hq'

theorem mem_mapFromList {V : Type} (l : List (Nat × V))
    (hnd : (l.map Prod.fst).Nodup) (q : Nat × V) :
    q ∈ mapFromList l ↔ q ∈ l := by
  rw [mapFromList, mem_foldl_insertSorted l [] List.Pairwise.nil hnd (by simp) q]
  simp

theorem nodup_of_pairwise_keyLT {V : Type} {m : List (Nat × V)}
    (hm : m.Pairwise keyLT) : m.Nodup :=
  hm.imp fun h => by
    intro hc
    rw [hc] at h
    exact absurd h (lt_irrefl _)

/-- Two maps in strictly ascending key order that hold the same entries
are the same list. -/
theorem eq_of_pairwise_of_mem_iff {V : Type} [DecidableEq V]
    {m1 m2 : List (Nat × V)} (h1 : m1.Pairwise keyLT) (h2 : m2.Pairwise keyLT)
    (hmem : ∀ q : Nat × V, q ∈ m1 ↔ q ∈ m2) : m1 = m2 := by
  have hperm : m1.Perm m2 := by
    apply List.perm_of_nodup_nodup_toFinset_eq (nodup_of_pairwise_keyLT h1)
      (nodup_of_pairwise_keyLT h2)
    ext q
    simp only [List.mem_toFinset]
    exact hmem q
  exact List.eq_of_perm_of_sorted hperm h1 h2

/-- Inserting the entries of a strictly-ascending list into the empty map
reproduces the list itself. -/
theorem mapFromList_self {V : Type} [DecidableEq V] (m : List (Nat × V))
    (hm : m.Pairwise keyLT) : mapFromList m = m := by
  have hnd : (m.map Prod.fst).Nodup := by
    have hp : (m.map Prod.fst).Pairwise (· < ·) :=
      List.pairwise_map.mpr (hm.imp fun h => h)
    exact hp.imp ne_of_lt
  exact eq_of_pairwise_of_mem_iff (pairwise_mapFromList m) hm
    (fun q => mem_mapFromList m hnd q)

/-- Building a map from key-distinct entries is insertion-order
independent. -/
theorem mapFromList_perm {V : Type} [DecidableEq V] {l1 l2 : List (Nat × V)}
    (hp : l1.Perm l2) (hnd : (l1.map Prod.fst).Nodup) :
    mapFromList l1 = mapFromList l2 := by
  have hnd2 : (l2.map Prod.fst).Nodup := ((hp.map Prod.fst).nodup_iff).mp hnd
  refine eq_of_pairwise_of_mem_iff (pairwise_mapFromList l1) (pairwise_mapFromList l2) ?_
  intro q
  rw [mem_mapFromList l1 hnd q, mem_mapFromList l2 hnd2 q]
  exact hp.mem_iff

/-- Wire encoding of a `BTreeMap` with hex-string keys of width `w`:
a JSON object listing the entries in map (ascending key) order, as the
serializer walks the map in order. -/
def encodeMapWith {V : Type} (w : Nat) (encV : V → Json) (m : List (Nat × V)) : Json :=
  Json.obj (m.map fun p => (hexStrFixed w p.1, encV p.2))

/-- Wire decoding of the entry list of a map object: each key is parsed
as hex, each value decoded by `decV`, and the pair inserted in order, as
the derived `BTreeMap` visitor inserts entry by entry (a later duplicate
key overwrites, as `BTreeMap::insert` does). -/
def decodeMapEntries {V : Type} (decV : Json → Except DecodeError V) :
    List (String × Json) → List (Nat × V) → Except DecodeError (List (Nat × V))
  | [], acc => .ok acc
  | (sk, jv) :: tl, acc =>
    match parseHexStr sk with
    | none => .error (.schemaViolation "map key is not a hex string")
    | some k =>
      match decV jv with
      | .error e => .error e
      | .ok v => decodeMapEntries decV tl (insertSorted k v acc)

def decodeMapWith {V : Type} (decV : Json → Except DecodeError V) :
    Json → Except DecodeError (List (Nat × V))
  | .obj fs => decodeMapEntries decV fs []
  | _ => .error (.schemaViolation "expected an object for a map")

theorem decodeMapEntries_encoded {V : Type} {w : Nat} (hw : 0 < w)
    (encV : V → Json) (decV : Json → Except DecodeError V) (m : List (Nat × V))
    (hvals : ∀ p ∈ m, decV (encV p.2) = .ok p.2) :
    ∀ acc : List (Nat × V),
      decodeMapEntries decV (m.map fun p => (hexStrFixed w p.1, encV p.2)) acc =
        .ok (m.foldl (fun a p => insertSorted p.1 p.2 a) acc) := by
  induction m with
  | nil => intro acc; rfl
  | cons p tl ih =>
    intro acc
    obtain ⟨k, v⟩ := p
    have hv : decV (encV v) = .ok v := hvals (k, v) (List.mem_cons_self _ _)
    have htl : ∀ q ∈ tl, decV (encV q.2) = .ok q.2 :=
      fun q hq => hvals q (List.mem_cons_of_mem _ hq)
    simp only [List.map_cons, decodeMapEntries, parseHexStr_hexStrFixed k hw, hv,
      List.foldl_cons]
    exact ih htl (insertSorted k v acc)

theorem decodeMapWith_encodeMapWith {V : Type} [DecidableEq V] {w : Nat} (hw : 0 < w)
    (encV : V → Json) (decV : Json → Except DecodeError V) (m : List (Nat × V))
    (hm : m.Pairwise keyLT) (hvals : ∀ p ∈ m, decV (encV p.2) = .ok p.2) :
    decodeMapWith decV (encodeMapWith w encV m) = .ok m := by
  show decodeMapEntries decV (m.map fun p => (hexStrFixed w p.1, encV p.2)) [] = .ok m
  rw [decodeMapEntries_encoded hw encV decV m hvals []]
  show Except.ok (mapFromList m) = _
  rw [mapFromList_self m hm]

/-- Description of the type of trace to make (source enum `TraceType`).
The source derives only `Serialize` for it, with renamed variant tags
`trace`, `vmTrace`, `stateDiff`; no deserializer exists for it. -/
inductive TraceType where
  | Trace
  | VmTrace
  | StateDiff
deriving DecidableEq

/-- Serialization of a `TraceType`: a unit variant with a serde rename
serializes as its bare tag string. -/
def encodeTraceType : TraceType → Json
  | .Trace => Json.str "trace"
  | .VmTrace => Json.str "vmTrace"
  | .StateDiff => Json.str "stateDiff"

/-- Serialization of a `Vec<TraceType>` request list. -/
def encodeTraceTypeList (ts : List TraceType) : Json :=
  Json.arr (ts.map encodeTraceType)

/-- Aux type for `Diff::Changed` (source struct `ChangedType<T>`): the
before and after values of a change. -/
structure ChangedType (T : Type) where
  «from» : T
  «to» : T

instance {T : Type} [DecidableEq T] : DecidableEq (ChangedType T) :=
  fun a b =>
    if h1 : a.«from» = b.«from» then
      if h2 : a.«to» = b.«to» then .isTrue (by cases a; cases b; simp_all)
      else .isFalse (by intro hc; rw [hc] at h2; exact h2 rfl)
    else .isFalse (by intro hc; rw [hc] at h1; exact h1 rfl)

/-- Serde-friendly `Diff` shadow (source enum `Diff<T>`), externally
tagged with the renamed single-character variant tags. -/
inductive Diff (T : Type) where
  | Same
  | Born (v : T)
  | Died (v : T)
  | Changed (c : ChangedType T)

instance {T : Type} [DecidableEq T] : DecidableEq (Diff T) := fun a b =>
  match a, b with
  | .Same, .Same => .isTrue rfl
  | .Born v1, .Born v2 =>
    if h : v1 = v2 then .isTrue (by rw [h]) else .isFalse (by simp [h])
  | .Died v1, .Died v2 =>
    if h : v1 = v2 then .isTrue (by rw [h]) else .isFalse (by simp [h])
  | .Changed c1, .Changed c2 =>
    if h : c1 = c2 then .isTrue (by rw [h]) else .isFalse (by simp [h])
  | .Same, .Born _ => .isFalse (by simp)
  | .Same, .Died _ => .isFalse (by simp)
  | .Same, .Changed _ => .isFalse (by simp)
  | .Born _, .Same => .isFalse (by simp)
  | .Born _, .Died _ => .isFalse (by simp)
  | .Born _, .Changed _ => .isFalse (by simp)
  | .Died _, .Same => .isFalse (by simp)
  | .Died _, .Born _ => .isFalse (by simp)
  | .Died _, .Changed _ => .isFalse (by simp)
  | .Changed _, .Same => .isFalse (by simp)
  | .Changed _, .Born _ => .isFalse (by simp)
  | .Changed _, .Died _ => .isFalse (by simp)

/-- Externally-tagged serialization of `Diff<T>`: the unit variant `Same`
serializes as the bare tag string, payload variants as a single-key
object, and `Changed` nests a two-field `from`/`to` object. -/
def encodeDiff {T : Type} (encT : T → Json) : Diff T → Json
  | .Same => Json.str "="
  | .Born v => Json.obj [("+", encT v)]
  | .Died v => Json.obj [("-", encT v)]
  | .Changed c => Json.obj [("*", Json.obj [("from", encT c.«from»), ("to", encT c.«to»)])]

/-- Deserialization of `ChangedType<T>`: both `from` and `to` are
required fields. -/
def decodeChangedType {T : Type} (decT : Json → Except DecodeError T) :
    Json → Except DecodeError (ChangedType T)
  | .obj fs =>
    match jlookup fs "from" with
    | none => .error (.schemaViolation "missing field from in ChangedType")
    | some fj =>
      match decT fj with
      | .error e => .error e
      | .ok fv =>
        match jlookup fs "to" with
        | none => .error (.schemaViolation "missing field to in ChangedType")
        | some tj =>
          match decT tj with
          | .error e => .error e
          | .ok tv => .ok ⟨fv, tv⟩
  | _ => .error (.schemaViolation "expected an object for ChangedType")

/-- Externally-tagged deserialization of `Diff<T>`: dispatches strictly on
the tag — a bare string must be the unit tag, an object must have exactly
one key naming a variant, and anything else is rejected. -/
def decodeDiff {T : Type} (decT : Json → Except DecodeError T) :
    Json → Except DecodeError (Diff T)
  | .str s =>
    if s = "=" then .ok .Same
    else .error (.schemaViolation "unknown Diff variant tag")
  | .obj [(tag, payload)] =>
    if tag = "=" then
      match payload with
      | .null => .ok .Same
      | _ => .error (.schemaViolation "variant tag = takes no payload")
    else if tag = "+" then
      match decT payload with
      | .ok v => .ok (.Born v)
      | .error e => .error e
    else if tag = "-" then
      match decT payload with
      | .ok v => .ok (.Died v)
      | .error e => .error e
    else if tag = "*" then
      match decodeChangedType decT payload with
      | .ok c => .ok (.Changed c)
      | .error e => .error e
    else .error (.schemaViolation "unknown Diff variant tag")
  | .obj _ => .error (.schemaViolation "expected a single-key object for Diff")
  | _ => .error (.schemaViolation "expected a string or object for Diff")

theorem decodeDiff_encodeDiff {T : Type} (encT : T → Json)
    (decT : Json → Except DecodeError T) (hT : ∀ t, decT (encT t) = .ok t) :
    ∀ d : Diff T, decodeDiff decT (encodeDiff encT d) = .ok d := by
  intro d
  match d with
  | .Same => rfl
  | .Born v => simp [encodeDiff, decodeDiff, hT v]
  | .Died v => simp [encodeDiff, decodeDiff, hT v]
  | .Changed c =>
    simp [encodeDiff, decodeDiff, decodeChangedType, jlookup, hT c.«from», hT c.«to»]

theorem exists_schemaViolation_of_not_isOk {α : Type} {r : Except DecodeError α}
    (h : r.isOk = false) : ∃ m, r = .error (.schemaViolation m) := by
  match r with
  | .ok a => exact absurd h (by simp [Except.isOk, Except.toBool])
  | .error (.schemaViolation m) => exact ⟨m, rfl⟩

theorem decodeDiff_str_unknown {T : Type} (decT : Json → Except DecodeError T)
    {s : String} (hs : s ≠ "=") :
    decodeDiff decT (Json.str s) = .error (.schemaViolation "unknown Diff variant tag") := by
  simp [decodeDiff, hs]

theorem decodeDiff_obj_unknown {T : Type} (decT : Json → Except DecodeError T)
    {tag : String} (payload : Json)
    (h1 : tag ≠ "=") (h2 : tag ≠ "+") (h3 : tag ≠ "-") (h4 : tag ≠ "*") :
    decodeDiff decT (Json.obj [(tag, payload)]) =
      .error (.schemaViolation "unknown Diff variant tag") := by
  simp [decodeDiff, h1, h2, h3, h4]

theorem decodeChangedType_missing_from {T : Type}
    (decT : Json → Except DecodeError T) (fs : List (String × Json))
    (h : "from" ∉ fs.map Prod.fst) :
    decodeChangedType decT (Json.obj fs) =
      .error (.schemaViolation "missing field from in ChangedType") := by
  simp [decodeChangedType, jlookup_eq_none_of_not_mem fs "from" h]

theorem decodeChangedType_missing_to {T : Type}
    (decT : Json → Except DecodeError T) (fs : List (String × Json))
    (h : "to" ∉ fs.map Prod.fst) :
    (decodeChangedType decT (Json.obj fs)).isOk = false := by
  simp only [decodeChangedType]
  split
  · rfl
  · split
    · rfl
    · rw [jlookup_eq_none_of_not_mem fs "to" h]
      rfl

theorem decodeDiff_changed_isOk {T : Type} (decT : Json → Except DecodeError T)
    (payload : Json) :
    (decodeDiff decT (Json.obj [("*", payload)])).isOk =
      (decodeChangedType decT payload).isOk := by
  simp only [decodeDiff, if_true, if_false]
  match decodeChangedType decT payload with
  | .ok c => rfl
  | .error e => rfl

/-- Modelled from the spec: 256-bit unsigned integer (`U256`), embedded as
`Nat`.  Its wire form is the minimal `0x`-prefixed big-endian hex string;
the codec is an external collaborator the spec declares assumed-correct
and out of scope, and it is injective on all of `Nat`. -/
abbrev U256 := Nat

def encodeU256 (n : U256) : Json := Json.str (hexStrMin n)

def decodeU256 : Json → Except DecodeError U256
  | .str s =>
    match parseHexStr s with
    | some v => .ok v
    | none => .error (.schemaViolation "expected a hex quantity string")
  | _ => .error (.schemaViolation "expected a hex quantity string")

theorem decodeU256_encodeU256 (n : U256) : decodeU256 (encodeU256 n) = .ok n := by
  simp [decodeU256, encodeU256, parseHexStr_hexStrMin]

/-- Modelled from the spec: 20-byte address (`H160`), embedded as its
numeric value.  Its wire form is `0x` plus 40 fixed-width lowercase hex
digits; the decoder parses the hex body (the claims at hand do not
exercise width enforcement). -/
abbrev H160 := Nat

/-- Modelled from the spec: 32-byte word (`H256`), embedded as its numeric
value; wire form `0x` plus 64 fixed-width lowercase hex digits. -/
abbrev H256 := Nat

def encodeH256 (n : H256) : Json := Json.str (hexStrFixed 64 n)

def decodeH256 : Json → Except DecodeError H256
  | .str s =>
    match parseHexStr s with
    | some v => .ok v
    | none => .error (.schemaViolation "expected a hex hash string")
  | _ => .error (.schemaViolation "expected a hex hash string")

theorem decodeH256_encodeH256 (n : H256) : decodeH256 (encodeH256 n) = .ok n := by
  simp [decodeH256, encodeH256, parseHexStr_hexStrFixed n (by norm_num : (0 : Nat) < 64)]

/-- Serde-friendly `AccountDiff` shadow (source struct `AccountDiff`):
balance, nonce and code diffs plus the storage diff map.  The storage
`BTreeMap<H256, Diff<H256>>` is embedded as an ascending association
list. -/
structure AccountDiff where
  balance : Diff U256
  nonce : Diff U256
  code : Diff Bytes
  storage : List (Nat × Diff H256)

instance : DecidableEq AccountDiff := fun a b =>
  if h1 : a.balance = b.balance then
    if h2 : a.nonce = b.nonce then
      if h3 : a.code = b.code then
        if h4 : a.storage = b.storage then
          .isTrue (by cases a; cases b; simp_all)
        else .isFalse (by intro hc; rw [hc] at h4; exact h4 rfl)
      else .isFalse (by intro hc; rw [hc] at h3; exact h3 rfl)
    else .isFalse (by intro hc; rw [hc] at h2; exact h2 rfl)
  else .isFalse (by intro hc; rw [hc] at h1; exact h1 rfl)

/-- The `BTreeMap` representation invariant of an in-memory `AccountDiff`:
storage keys strictly ascending. -/
def AccountDiff.valid (a : AccountDiff) : Prop := a.storage.Pairwise keyLT

def encodeAccountDiff (a : AccountDiff) : Json :=
  Json.obj
    [("balance", encodeDiff encodeU256 a.balance),
     ("nonce", encodeDiff encodeU256 a.nonce),
     ("code", encodeDiff encodeBytes a.code),
     ("storage", encodeMapWith 64 (encodeDiff encodeH256) a.storage)]

def decodeAccountDiff : Json → Except DecodeError AccountDiff
  | .obj fs =>
    match jlookup fs "balance" with
    | none => .error (.schemaViolation "missing field balance")
    | some bj =>
      match decodeDiff decodeU256 bj with
      | .error e => .error e
      | .ok bal =>
        match jlookup fs "nonce" with
        | none => .error (.schemaViolation "missing field nonce")
        | some nj =>
          match decodeDiff decodeU256 nj with
          | .error e => .error e
          | .ok non =>
            match jlookup fs "code" with
            | none => .error (.schemaViolation "missing field code")
            | some cj =>
              match decodeDiff decodeBytes cj with
              | .error e => .error e
              | .ok cod =>
                match jlookup fs "storage" with
                | none => .error (.schemaViolation "missing field storage")
                | some sj =>
                  match decodeMapWith (decodeDiff decodeH256) sj with
                  | .error e => .error e
                  | .ok sto => .ok ⟨bal, non, cod, sto⟩
  | _ => .error (.schemaViolation "expected an object for AccountDiff")

theorem decodeAccountDiff_encodeAccountDiff (a : AccountDiff) (ha : a.valid) :
    decodeAccountDiff (encodeAccountDiff a) = .ok a := by
  obtain ⟨bal, non, cod, sto⟩ := a
  have hsto : decodeMapWith (decodeDiff decodeH256)
      (encodeMapWith 64 (encodeDiff encodeH256) sto) = .ok sto :=
    decodeMapWith_encodeMapWith (by norm_num) _ _ sto ha
      (fun p _ => decodeDiff_encodeDiff encodeH256 decodeH256 decodeH256_encodeH256 p.2)
  simp [encodeAccountDiff, decodeAccountDiff, jlookup, hsto,
    decodeDiff_encodeDiff encodeU256 decodeU256 decodeU256_encodeU256,
    decodeDiff_encodeDiff encodeBytes decodeBytes decodeBytes_encodeBytes]

/-- Serde-friendly `StateDiff` shadow (source tuple struct `StateDiff`):
a newtype over `BTreeMap<H160, AccountDiff>`, embedded as an ascending
association list; a newtype struct serializes as its inner value. -/
structure StateDiff where
  accounts : List (Nat × AccountDiff)

instance : DecidableEq StateDiff := fun a b =>
  if h : a.accounts = b.accounts then .isTrue (by cases a; cases b; simp_all)
  else .isFalse (by intro hc; rw [hc] at h; exact h rfl)

/-- The `BTreeMap` representation invariant of an in-memory `StateDiff`:
address keys strictly ascending, each account diff itself valid. -/
def StateDiff.valid (s : StateDiff) : Prop :=
  s.accounts.Pairwise keyLT ∧ ∀ p ∈ s.accounts, p.2.valid

def encodeStateDiff (s : StateDiff) : Json :=
  encodeMapWith 40 encodeAccountDiff s.accounts

def decodeStateDiff (j : Json) : Except DecodeError StateDiff :=
  match decodeMapWith decodeAccountDiff j with
  | .error e => .error e
  | .ok m => .ok ⟨m⟩

theorem decodeStateDiff_encodeStateDiff (s : StateDiff) (hs : s.valid) :
    decodeStateDiff (encodeStateDiff s) = .ok s := by
  obtain ⟨m⟩ := s
  have : decodeMapWith decodeAccountDiff (encodeMapWith 40 encodeAccountDiff m) = .ok m :=
    decodeMapWith_encodeMapWith (by norm_num) _ _ m hs.1
      (fun p hp => decodeAccountDiff_encodeAccountDiff p.2 (hs.2 p hp))
  simp [decodeStateDiff, encodeStateDiff, this]

def decodeNat : Json → Except DecodeError Nat
  | .num n => .ok n
  | _ => .error (.schemaViolation "expected an unsigned integer")

def decodeString : Json → Except DecodeError String
  | .str s => .ok s
  | _ => .error (.schemaViolation "expected a string")

def decodeNatList : Json → Except DecodeError (List Nat)
  | .arr xs => xs.mapM decodeNat
  | _ => .error (.schemaViolation "expected an array of integers")

theorem decodeNatList_encoded (l : List Nat) :
    decodeNatList (Json.arr (l.map Json.num)) = .ok l := by
  show List.mapM decodeNat (l.map Json.num) = .ok l
  induction l with
  | nil => rfl
  | cons n tl ih =>
    simp only [List.map_cons, List.mapM_cons, ih, decodeNat]
    rfl

/-- A `None` optional field serializes as JSON null; `Some` as the inner
value. -/
def encodeOption {α : Type} (enc : α → Json) : Option α → Json
  | none => Json.null
  | some v => enc v

/-- Deserialization of `Option<T>`: null is `None`, any other value is
deserialized as `T`. -/
def decodeOptionWith {α : Type} (dec : Json → Except DecodeError α) :
    Json → Except DecodeError (Option α)
  | .null => .ok none
  | j =>
    match dec j with
    | .ok v => .ok (some v)
    | .error e => .error e

/-- Modelled from the spec: the `Action` model is an external collaborator
supplied outside this core and "treated as an opaque nested payload"
(spec §6).  It is embedded as an opaque value with an injective wire
encoding. -/
structure Action where
  payload : Nat

instance : DecidableEq Action := fun a b =>
  if h : a.payload = b.payload then .isTrue (by cases a; cases b; simp_all)
  else .isFalse (by intro hc; rw [hc] at h; exact h rfl)

def encodeAction (a : Action) : Json := Json.num a.payload

def decodeAction : Json → Except DecodeError Action
  | .num n => .ok ⟨n⟩
  | _ => .error (.schemaViolation "expected an action payload")

/-- Modelled from the spec: `action_type` is a "tag classifying the
action" over the call-tree action kinds the spec names (CALL, CREATE,
SELFDESTRUCT); decoding fails on a tag outside the recognized set. -/
inductive ActionType where
  | Call
  | Create
  | Selfdestruct

instance : DecidableEq ActionType := fun a b =>
  match a, b with
  | .Call, .Call => .isTrue rfl
  | .Create, .Create => .isTrue rfl
  | .Selfdestruct, .Selfdestruct => .isTrue rfl
  | .Call, .Create => .isFalse (by simp)
  | .Call, .Selfdestruct => .isFalse (by simp)
  | .Create, .Call => .isFalse (by simp)
  | .Create, .Selfdestruct => .isFalse (by simp)
  | .Selfdestruct, .Call => .isFalse (by simp)
  | .Selfdestruct, .Create => .isFalse (by simp)

def encodeActionType : ActionType → Json
  | .Call => Json.str "call"
  | .Create => Json.str "create"
  | .Selfdestruct => Json.str "selfdestruct"

def decodeActionType : Json → Except DecodeError ActionType
  | .str s =>
    if s = "call" then .ok .Call
    else if s = "create" then .ok .Create
    else if s = "selfdestruct" then .ok .Selfdestruct
    else .error (.schemaViolation "unrecognized action type tag")
  | _ => .error (.schemaViolation "expected an action type tag")

theorem decodeActionType_encodeActionType (a : ActionType) :
    decodeActionType (encodeActionType a) = .ok a := by
  cases a <;> rfl

/-- Modelled from the spec: the call outcome model `Res` is an external
collaborator whose value this core carries as an "optional outcome value"
(spec §3); embedded as an opaque value with an injective wire encoding. -/
structure Res where
  payload : Nat

instance : DecidableEq Res := fun a b =>
  if h : a.payload = b.payload then .isTrue (by cases a; cases b; simp_all)
  else .isFalse (by intro hc; rw [hc] at h; exact h rfl)

def encodeRes (r : Res) : Json := Json.num r.payload

def decodeRes : Json → Except DecodeError Res
  | .num n => .ok ⟨n⟩
  | _ => .error (.schemaViolation "expected a result payload")

/-- One node of a call tree (source struct `TransactionTrace`): the
renamed wire fields are `traceAddress` and `type`; `result` and `error`
are `Option` fields. -/
structure TransactionTrace where
  trace_address : List Nat
  subtraces : Nat
  action : Action
  action_type : ActionType
  result : Option Res
  error : Option String

instance : DecidableEq TransactionTrace := fun a b =>
  if h1 : a.trace_address = b.trace_address then
    if h2 : a.subtraces = b.subtraces then
      if h3 : a.action = b.action then
        if h4 : a.action_type = b.action_type then
          if h5 : a.result = b.result then
            if h6 : a.error = b.error then .isTrue (by cases a; cases b; simp_all)
            else .isFalse (by intro hc; rw [hc] at h6; exact h6 rfl)
          else .isFalse (by intro hc; rw [hc] at h5; exact h5 rfl)
        else .isFalse (by intro hc; rw [hc] at h4; exact h4 rfl)
      else .isFalse (by intro hc; rw [hc] at h3; exact h3 rfl)
    else .isFalse (by intro hc; rw [hc] at h2; exact h2 rfl)
  else .isFalse (by intro hc; rw [hc] at h1; exact h1 rfl)

/-- Serialization of `TransactionTrace`: fields in declaration order; the
`Option` fields serialize as their value or null.  Serialization is total:
the derived serializer performs no mutual-exclusion or other invariant
check, and no encode-time error type exists. -/
def encodeTransactionTrace (t : TransactionTrace) : Json :=
  Json.obj
    [("traceAddress", Json.arr (t.trace_address.map Json.num)),
     ("subtraces", Json.num t.subtraces),
     ("action", encodeAction t.action),
     ("type", encodeActionType t.action_type),
     ("result", encodeOption encodeRes t.result),
     ("error", encodeOption Json.str t.error)]

/-- Deserialization of `TransactionTrace`: the four non-`Option` fields
are required; `result` and `error` default to `None` when absent, and are
decoded independently — no cross-field exclusion check is made. -/
def decodeTransactionTrace : Json → Except DecodeError TransactionTrace
  | .obj fs =>
    match jlookup fs "traceAddress" with
    | none => .error (.schemaViolation "missing field traceAddress")
    | some taj =>
      match decodeNatList taj with
      | .error e => .error e
      | .ok ta =>
        match jlookup fs "subtraces" with
        | none => .error (.schemaViolation "missing field subtraces")
        | some stj =>
          match decodeNat stj with
          | .error e => .error e
          | .ok st =>
            match jlookup fs "action" with
            | none => .error (.schemaViolation "missing field action")
            | some aj =>
              match decodeAction aj with
              | .error e => .error e
              | .ok act =>
                match jlookup fs "type" with
                | none => .error (.schemaViolation "missing field type")
                | some tyj =>
                  match decodeActionType tyj with
                  | .error e => .error e
                  | .ok ty =>
                    match (match jlookup fs "result" with
                           | none => (.ok none : Except DecodeError (Option Res))
                           | some rj => decodeOptionWith decodeRes rj) with
                    | .error e => .error e
                    | .ok res =>
                      match (match jlookup fs "error" with
                             | none => (.ok none : Except DecodeError (Option String))
                             | some ej => decodeOptionWith decodeString ej) with
                      | .error e => .error e
                      | .ok err => .ok ⟨ta, st, act, ty, res, err⟩
  | _ => .error (.schemaViolation "expected an object for TransactionTrace")

theorem decodeTransactionTrace_encodeTransactionTrace (t : TransactionTrace) :
    decodeTransactionTrace (encodeTransactionTrace t) = .ok t := by
  obtain ⟨ta, st, ⟨ap⟩, ty, res, err⟩ := t
  cases res <;> cases err <;>
    simp [encodeTransactionTrace, decodeTransactionTrace, jlookup, encodeOption,
      decodeOptionWith, decodeNatList_encoded, decodeNat, encodeAction, decodeAction,
      decodeActionType_encodeActionType, encodeRes, decodeRes, decodeString]


/-- A diff of some chunk of memory (source struct `MemoryDiff`). -/
structure MemoryDiff where
  off : Nat
  data : Bytes

instance : DecidableEq MemoryDiff := fun a b =>
  if h1 : a.off = b.off then
    if h2 : a.data = b.data then .isTrue (by cases a; cases b; simp_all)
    else .isFalse (by intro hc; rw [hc] at h2; exact h2 rfl)
  else .isFalse (by intro hc; rw [hc] at h1; exact h1 rfl)

def encodeMemoryDiff (m : MemoryDiff) : Json :=
  Json.obj [("off", Json.num m.off), ("data", encodeBytes m.data)]

def decodeMemoryDiff : Json → Except DecodeError MemoryDiff
  | .obj fs =>
    match jlookup fs "off" with
    | none => .error (.schemaViolation "missing field off")
    | some oj =>
      match decodeNat oj with
      | .error e => .error e
      | .ok off =>
        match jlookup fs "data" with
        | none => .error (.schemaViolation "missing field data")
        | some dj =>
          match decodeBytes dj with
          | .error e => .error e
          | .ok dat => .ok ⟨off, dat⟩
  | _ => .error (.schemaViolation "expected an object for MemoryDiff")

theorem decodeMemoryDiff_encodeMemoryDiff (m : MemoryDiff) :
    decodeMemoryDiff (encodeMemoryDiff m) = .ok m := by
  obtain ⟨off, dat⟩ := m
  simp [encodeMemoryDiff, decodeMemoryDiff, jlookup, decodeNat, decodeBytes_encodeBytes]

/-- A diff of some storage value (source struct `StorageDiff`). -/
structure StorageDiff where
  key : U256
  val : U256

instance : DecidableEq StorageDiff := fun a b =>
  if h1 : a.key = b.key then
    if h2 : a.val = b.val then .isTrue (by cases a; cases b; simp_all)
    else .isFalse (by intro hc; rw [hc] at h2; exact h2 rfl)
  else .isFalse (by intro hc; rw [hc] at h1; exact h1 rfl)

def encodeStorageDiff (s : StorageDiff) : Json :=
  Json.obj [("key", encodeU256 s.key), ("val", encodeU256 s.val)]

def decodeStorageDiff : Json → Except DecodeError StorageDiff
  | .obj fs =>
    match jlookup fs "key" with
    | none => .error (.schemaViolation "missing field key")
    | some kj =>
      match decodeU256 kj with
      | .error e => .error e
      | .ok k =>
        match jlookup fs "val" with
        | none => .error (.schemaViolation "missing field val")
        | some vj =>
          match decodeU256 vj with
          | .error e => .error e
          | .ok v => .ok ⟨k, v⟩
  | _ => .error (.schemaViolation "expected an object for StorageDiff")

theorem decodeStorageDiff_encodeStorageDiff (s : StorageDiff) :
    decodeStorageDiff (encodeStorageDiff s) = .ok s := by
  obtain ⟨k, v⟩ := s
  simp [encodeStorageDiff, decodeStorageDiff, jlookup, decodeU256_encodeU256]

def decodeU256List : Json → Except DecodeError (List U256)
  | .arr xs => xs.mapM decodeU256
  | _ => .error (.schemaViolation "expected an array of quantities")

theorem decodeU256List_encoded (l : List U256) :
    decodeU256List (Json.arr (l.map encodeU256)) = .ok l := by
  show List.mapM decodeU256 (l.map encodeU256) = .ok l
  induction l with
  | nil => rfl
  | cons n tl ih =>
    simp only [List.map_cons, List.mapM_cons, ih, decodeU256_encodeU256]
    rfl

/-- A record of an executed VM operation (source struct
`VMExecutedOperation`): gas used, pushed stack items, and the optional
memory and storage deltas. -/
structure VMExecutedOperation where
  used : Nat
  push : List U256
  mem : Option MemoryDiff
  store : Option StorageDiff

instance : DecidableEq VMExecutedOperation := fun a b =>
  if h1 : a.used = b.used then
    if h2 : a.push = b.push then
      if h3 : a.mem = b.mem then
        if h4 : a.store = b.store then .isTrue (by cases a; cases b; simp_all)
        else .isFalse (by intro hc; rw [hc] at h4; exact h4 rfl)
      else .isFalse (by intro hc; rw [hc] at h3; exact h3 rfl)
    else .isFalse (by intro hc; rw [hc] at h2; exact h2 rfl)
  else .isFalse (by intro hc; rw [hc] at h1; exact h1 rfl)

def encodeVMExecutedOperation (e : VMExecutedOperation) : Json :=
  Json.obj
    [("used", Json.num e.used),
     ("push", Json.arr (e.push.map encodeU256)),
     ("mem", encodeOption encodeMemoryDiff e.mem),
     ("store", encodeOption encodeStorageDiff e.store)]

/-- Deserialization of `VMExecutedOperation`: `used` and `push` are
required (they are not `Option` fields and carry no serde default);
`mem` and `store` are `Option` fields, absent or null meaning `None`. -/
def decodeVMExecutedOperation : Json → Except DecodeError VMExecutedOperation
  | .obj fs =>
    match jlookup fs "used" with
    | none => .error (.schemaViolation "missing field used")
    | some uj =>
      match decodeNat uj with
      | .error e => .error e
      | .ok used =>
        match jlookup fs "push" with
        | none => .error (.schemaViolation "missing field push")
        | some pj =>
          match decodeU256List pj with
          | .error e => .error e
          | .ok push =>
            match (match jlookup fs "mem" with
                   | none => (.ok none : Except DecodeError (Option MemoryDiff))
                   | some mj => decodeOptionWith decodeMemoryDiff mj) with
            | .error e => .error e
            | .ok mem =>
              match (match jlookup fs "store" with
                     | none => (.ok none : Except DecodeError (Option StorageDiff))
                     | some sj => decodeOptionWith decodeStorageDiff sj) with
              | .error e => .error e
              | .ok sto => .ok ⟨used, push, mem, sto⟩
  | _ => .error (.schemaViolation "expected an object for VMExecutedOperation")

theorem decodeVMExecutedOperation_encodeVMExecutedOperation (e : VMExecutedOperation) :
    decodeVMExecutedOperation (encodeVMExecutedOperation e) = .ok e := by
  obtain ⟨used, push, mem, sto⟩ := e
  cases mem <;> cases sto <;>
    simp [encodeVMExecutedOperation, decodeVMExecutedOperation, jlookup, decodeNat,
      decodeU256List_encoded, encodeOption, decodeOptionWith,
      encodeMemoryDiff, decodeMemoryDiff, encodeStorageDiff, decodeStorageDiff,
      decodeU256_encodeU256, decodeBytes_encodeBytes]

mutual

/-- A record of a full VM trace for a CALL/CREATE (source struct
`VMTrace`): the code being executed and the operations performed. -/
inductive VMTrace where
  | mk (code : Bytes) (ops : List VMOperation)

/-- A record of the execution of a single VM operation (source struct
`VMOperation`): program counter, gas cost, optional execution record,
and the optional subordinate trace of a CALL/CREATE — the recursion
point of the model. -/
inductive VMOperation where
  | mk (pc : Nat) (cost : Nat) (ex : Option VMExecutedOperation) (sub : Option VMTrace)

end

def VMTrace.code : VMTrace → Bytes
  | .mk c _ => c

def VMTrace.ops : VMTrace → List VMOperation
  | .mk _ o => o

def VMOperation.pc : VMOperation → Nat
  | .mk p _ _ _ => p

def VMOperation.cost : VMOperation → Nat
  | .mk _ c _ _ => c

def VMOperation.ex : VMOperation → Option VMExecutedOperation
  | .mk _ _ e _ => e

def VMOperation.sub : VMOperation → Option VMTrace
  | .mk _ _ _ s => s

mutual

def encodeVMTrace : VMTrace → Json
  | .mk code ops =>
    Json.obj [("code", encodeBytes code), ("ops", Json.arr (encodeVMOperations ops))]

def encodeVMOperations : List VMOperation → List Json
  | [] => []
  | op :: tl => encodeVMOperation op :: encodeVMOperations tl

def encodeVMOperation : VMOperation → Json
  | .mk pc cost ex sub =>
    Json.obj
      [("pc", Json.num pc),
       ("cost", Json.num cost),
       ("ex", encodeOption encodeVMExecutedOperation ex),
       ("sub", match sub with | none => Json.null | some t => encodeVMTrace t)]

end

mutual

/-- Deserialization of `VMTrace`: `code` and `ops` are required.  The
decoder recurses over the value tree with no depth accounting of any
kind: there is no depth limit and no depth error. -/
def decodeVMTrace : Json → Except DecodeError VMTrace
  | .obj fs =>
    match decodeVMTraceFields fs with
    | .error e => .error e
    | .ok (some code, some ops) => .ok (.mk code ops)
    | .ok (none, _) => .error (.schemaViolation "missing field code")
    | .ok (_, none) => .error (.schemaViolation "missing field ops")
  | _ => .error (.schemaViolation "expected an object for VMTrace")

/-- Field collection for `VMTrace`: walks the object's fields, decoding
the known ones (unknown fields are ignored, as serde does by default; the
objects of interest carry no duplicate keys). -/
def decodeVMTraceFields :
    List (String × Json) → Except DecodeError (Option Bytes × Option (List VMOperation))
  | [] => .ok (none, none)
  | (k, v) :: tl =>
    match decodeVMTraceFields tl with
    | .error e => .error e
    | .ok acc =>
      if k = "code" then
        match decodeBytes v with
        | .error e => .error e
        | .ok c => .ok (some c, acc.2)
      else if k = "ops" then
        match decodeVMOperationsJson v with
        | .error e => .error e
        | .ok ops => .ok (acc.1, some ops)
      else .ok acc

def decodeVMOperationsJson : Json → Except DecodeError (List VMOperation)
  | .arr xs => decodeVMOperationList xs
  | _ => .error (.schemaViolation "expected an array for ops")

def decodeVMOperationList : List Json → Except DecodeError (List VMOperation)
  | [] => .ok []
  | x :: tl =>
    match decodeVMOperation x with
    | .error e => .error e
    | .ok op =>
      match decodeVMOperationList tl with
      | .error e => .error e
      | .ok rest => .ok (op :: rest)

/-- Deserialization of the `sub` field value of a `VMOperation`: null is
`None`, anything else must decode as a nested `VMTrace`. -/
def decodeSubField : Json → Except DecodeError (Option VMTrace)
  | .null => .ok none
  | jv =>
    match decodeVMTrace jv with
    | .error e => .error e
    | .ok t => .ok (some t)

/-- Deserialization of `VMOperation`: `pc` and `cost` are required; `ex`
and `sub` are `Option` fields defaulting to `None` when absent. -/
def decodeVMOperation : Json → Except DecodeError VMOperation
  | .obj fs =>
    match decodeVMOperationFields fs with
    | .error e => .error e
    | .ok (some pc, some cost, ex, sub) => .ok (.mk pc cost (ex.getD none) (sub.getD none))
    | .ok (none, _, _, _) => .error (.schemaViolation "missing field pc")
    | .ok (_, none, _, _) => .error (.schemaViolation "missing field cost")
  | _ => .error (.schemaViolation "expected an object for VMOperation")

/-- Field collection for `VMOperation`: the outer `Option` of the `ex`
and `sub` components records whether the field was present at all; the
inner one is the decoded `Option` value (null decodes to `None`). -/
def decodeVMOperationFields :
    List (String × Json) →
      Except DecodeError
        (Option Nat × Option Nat × Option (Option VMExecutedOperation) ×
          Option (Option VMTrace))
  | [] => .ok (none, none, none, none)
  | (k, v) :: tl =>
    match decodeVMOperationFields tl with
    | .error e => .error e
    | .ok (pc, cost, ex, sub) =>
      if k = "pc" then
        match decodeNat v with
        | .error e => .error e
        | .ok n => .ok (some n, cost, ex, sub)
      else if k = "cost" then
        match decodeNat v with
        | .error e => .error e
        | .ok n => .ok (pc, some n, ex, sub)
      else if k = "ex" then
        match decodeOptionWith decodeVMExecutedOperation v with
        | .error e => .error e
        | .ok exv => .ok (pc, cost, some exv, sub)
      else if k = "sub" then
        match decodeSubField v with
        | .error e => .error e
        | .ok sv => .ok (pc, cost, ex, some sv)
      else .ok (pc, cost, ex, sub)

end


mutual

def vmTraceSize : VMTrace → Nat
  | .mk _ ops => 1 + vmOperationsSize ops

def vmOperationsSize : List VMOperation → Nat
  | [] => 0
  | op :: tl => 1 + vmOperationSize op + vmOperationsSize tl

def vmOperationSize : VMOperation → Nat
  | .mk _ _ _ none => 1
  | .mk _ _ _ (some t) => 1 + vmTraceSize t

end

theorem encodeVMTrace_shape (t : VMTrace) : ∃ fs, encodeVMTrace t = Json.obj fs := by
  match t with
  | .mk code ops => exact ⟨_, rfl⟩

theorem decodeOptionWith_obj {α : Type} (dec : Json → Except DecodeError α)
    (fs : List (String × Json)) :
    decodeOptionWith dec (Json.obj fs) =
      match dec (Json.obj fs) with
      | .ok v => .ok (some v)
      | .error e => .error e := rfl

theorem decodeOptionWith_exec (ex : Option VMExecutedOperation) :
    decodeOptionWith decodeVMExecutedOperation
      (encodeOption encodeVMExecutedOperation ex) = .ok ex := by
  cases ex with
  | none => rfl
  | some e =>
    show decodeOptionWith decodeVMExecutedOperation (encodeVMExecutedOperation e) =
      .ok (some e)
    have hfs : ∃ fs, encodeVMExecutedOperation e = Json.obj fs := ⟨_, rfl⟩
    obtain ⟨fs, hfs⟩ := hfs
    have hd := decodeVMExecutedOperation_encodeVMExecutedOperation e
    rw [hfs] at hd
    rw [hfs, decodeOptionWith_obj, hd]

mutual

theorem decodeVMTrace_encodeVMTrace (t : VMTrace) :
    decodeVMTrace (encodeVMTrace t) = .ok t := by
  match t with
  | .mk code ops =>
    have hops := decodeVMOperationList_encodeVMOperations ops
    simp [encodeVMTrace, decodeVMTrace, decodeVMTraceFields, decodeVMOperationsJson,
      decodeBytes_encodeBytes, hops]
termination_by vmTraceSize t
decreasing_by simp [vmTraceSize, vmOperationsSize, vmOperationSize]

theorem decodeVMOperationList_encodeVMOperations (l : List VMOperation) :
    decodeVMOperationList (encodeVMOperations l) = .ok l := by
  match l with
  | [] => simp [encodeVMOperations, decodeVMOperationList]
  | op :: tl =>
    have h1 := decodeVMOperation_encodeVMOperation op
    have h2 := decodeVMOperationList_encodeVMOperations tl
    simp [encodeVMOperations, decodeVMOperationList, h1, h2]
termination_by vmOperationsSize l
decreasing_by all_goals simp [vmOperationsSize, vmOperationSize] <;> omega

theorem decodeVMOperation_encodeVMOperation (op : VMOperation) :
    decodeVMOperation (encodeVMOperation op) = .ok op := by
  match op with
  | .mk pc cost ex none =>
    simp [encodeVMOperation, decodeVMOperation, decodeVMOperationFields, decodeNat,
      decodeOptionWith_exec ex, decodeSubField]
  | .mk pc cost ex (some t) =>
    have ht := decodeVMTrace_encodeVMTrace t
    obtain ⟨fs, hfs⟩ := encodeVMTrace_shape t
    rw [hfs] at ht
    simp [encodeVMOperation, decodeVMOperation, decodeVMOperationFields, decodeNat,
      decodeOptionWith_exec ex, decodeSubField, hfs, ht]
termination_by vmOperationSize op
decreasing_by simp [vmOperationSize, vmTraceSize]

end

mutual

/-- Sub-trace nesting depth of a VM trace: a trace with no nested
sub-trace has depth one; each level of `sub` nesting adds one. -/
def vmTraceDepth : VMTrace → Nat
  | .mk _ ops => 1 + vmOperationsDepth ops

def vmOperationsDepth : List VMOperation → Nat
  | [] => 0
  | op :: tl => max (vmOperationDepth op) (vmOperationsDepth tl)

def vmOperationDepth : VMOperation → Nat
  | .mk _ _ _ none => 0
  | .mk _ _ _ (some t) => vmTraceDepth t

end

/-- A chain of VM traces of any requested nesting depth: `deepVMTrace n`
nests a sub-trace `n` levels below the root. -/
def deepVMTrace : Nat → VMTrace
  | 0 => .mk [] []
  | n + 1 => .mk [] [.mk 0 0 none (some (deepVMTrace n))]

theorem vmTraceDepth_deepVMTrace (n : Nat) : vmTraceDepth (deepVMTrace n) = n + 1 := by
  induction n with
  | zero => rfl
  | succ m ih =>
    simp [deepVMTrace, vmTraceDepth, vmOperationsDepth, vmOperationDepth] at *
    omega

def decodeTransactionTraceList : Json → Except DecodeError (List TransactionTrace)
  | .arr xs => xs.mapM decodeTransactionTrace
  | _ => .error (.schemaViolation "expected an array of transaction traces")

theorem decodeTransactionTraceList_encoded (l : List TransactionTrace) :
    decodeTransactionTraceList (Json.arr (l.map encodeTransactionTrace)) = .ok l := by
  show List.mapM decodeTransactionTrace (l.map encodeTransactionTrace) = .ok l
  induction l with
  | nil => rfl
  | cons t tl ih =>
    simp only [List.map_cons, List.mapM_cons, ih,
      decodeTransactionTrace_encodeTransactionTrace]
    rfl

theorem decodeOptionWith_arr {α : Type} (dec : Json → Except DecodeError α)
    (xs : List Json) :
    decodeOptionWith dec (Json.arr xs) =
      match dec (Json.arr xs) with
      | .ok v => .ok (some v)
      | .error e => .error e := rfl

theorem decodeOptionWith_str {α : Type} (dec : Json → Except DecodeError α)
    (s : String) :
    decodeOptionWith dec (Json.str s) =
      match dec (Json.str s) with
      | .ok v => .ok (some v)
      | .error e => .error e := rfl

theorem decodeOptionWith_tracelist (o : Option (List TransactionTrace)) :
    decodeOptionWith decodeTransactionTraceList
      (encodeOption (fun ts => Json.arr (ts.map encodeTransactionTrace)) o) = .ok o := by
  cases o with
  | none => rfl
  | some ts =>
    show decodeOptionWith decodeTransactionTraceList
      (Json.arr (ts.map encodeTransactionTrace)) = .ok (some ts)
    rw [decodeOptionWith_arr, decodeTransactionTraceList_encoded]

theorem decodeOptionWith_vmtrace (o : Option VMTrace) :
    decodeOptionWith decodeVMTrace (encodeOption encodeVMTrace o) = .ok o := by
  cases o with
  | none => rfl
  | some t =>
    show decodeOptionWith decodeVMTrace (encodeVMTrace t) = .ok (some t)
    obtain ⟨fs, hfs⟩ := encodeVMTrace_shape t
    have hd := decodeVMTrace_encodeVMTrace t
    rw [hfs] at hd
    rw [hfs, decodeOptionWith_obj, hd]

theorem decodeOptionWith_statediff (o : Option StateDiff)
    (h : ∀ s ∈ o, s.valid) :
    decodeOptionWith decodeStateDiff (encodeOption encodeStateDiff o) = .ok o := by
  cases o with
  | none => rfl
  | some s =>
    show decodeOptionWith decodeStateDiff (encodeStateDiff s) = .ok (some s)
    have hfs : ∃ fs, encodeStateDiff s = Json.obj fs := ⟨_, rfl⟩
    obtain ⟨fs, hfs⟩ := hfs
    have hd := decodeStateDiff_encodeStateDiff s (h s rfl)
    rw [hfs] at hd
    rw [hfs, decodeOptionWith_obj, hd]

theorem decodeOptionWith_h256 (o : Option H256) :
    decodeOptionWith decodeH256 (encodeOption encodeH256 o) = .ok o := by
  cases o with
  | none => rfl
  | some n =>
    show decodeOptionWith decodeH256 (Json.str (hexStrFixed 64 n)) = .ok (some n)
    rw [decodeOptionWith_str]
    have hd := decodeH256_encodeH256 n
    rw [encodeH256] at hd
    rw [hd]

/-- Ad-hoc trace API envelope (source struct `BlockTrace`): the output
bytes plus the three optional trace views and the optional transaction
hash.  Wire field renames: `vmTrace`, `stateDiff`, `transactionHash`. -/
structure BlockTrace where
  output : Bytes
  trace : Option (List TransactionTrace)
  vm_trace : Option VMTrace
  state_diff : Option StateDiff
  transaction_hash : Option H256

/-- The `BTreeMap` representation invariant of an in-memory `BlockTrace`:
its state diff, when present, is valid. -/
def BlockTrace.valid (b : BlockTrace) : Prop := ∀ s ∈ b.state_diff, s.valid

/-- Serialization of `BlockTrace`: all five fields are emitted in
declaration order; an absent optional view is emitted as an explicit
null (serde emits `Option::None` as null; no skip-if-none attribute is
present in the source). -/
def encodeBlockTrace (b : BlockTrace) : Json :=
  Json.obj
    [("output", encodeBytes b.output),
     ("trace", encodeOption (fun ts => Json.arr (ts.map encodeTransactionTrace)) b.trace),
     ("vmTrace", encodeOption encodeVMTrace b.vm_trace),
     ("stateDiff", encodeOption encodeStateDiff b.state_diff),
     ("transactionHash", encodeOption encodeH256 b.transaction_hash)]

/-- Deserialization of `BlockTrace`: `output` is required; the four
optional fields decode independently of each other and of any requested
trace types, defaulting to `None` when absent or null. -/
def decodeBlockTrace : Json → Except DecodeError BlockTrace
  | .obj fs =>
    match jlookup fs "output" with
    | none => .error (.schemaViolation "missing field output")
    | some oj =>
      match decodeBytes oj with
      | .error e => .error e
      | .ok out =>
        match (match jlookup fs "trace" with
               | none => (.ok none : Except DecodeError (Option (List TransactionTrace)))
               | some tj => decodeOptionWith decodeTransactionTraceList tj) with
        | .error e => .error e
        | .ok tr =>
          match (match jlookup fs "vmTrace" with
                 | none => (.ok none : Except DecodeError (Option VMTrace))
                 | some vj => decodeOptionWith decodeVMTrace vj) with
          | .error e => .error e
          | .ok vt =>
            match (match jlookup fs "stateDiff" with
                   | none => (.ok none : Except DecodeError (Option StateDiff))
                   | some sj => decodeOptionWith decodeStateDiff sj) with
            | .error e => .error e
            | .ok sd =>
              match (match jlookup fs "transactionHash" with
                     | none => (.ok none : Except DecodeError (Option H256))
                     | some hj => decodeOptionWith decodeH256 hj) with
              | .error e => .error e
              | .ok th => .ok ⟨out, tr, vt, sd, th⟩
  | _ => .error (.schemaViolation "expected an object for BlockTrace")

theorem decodeBlockTrace_encodeBlockTrace (b : BlockTrace) (hb : b.valid) :
    decodeBlockTrace (encodeBlockTrace b) = .ok b := by
  obtain ⟨out, tr, vt, sd, th⟩ := b
  have h1 := decodeOptionWith_tracelist tr
  have h2 := decodeOptionWith_vmtrace vt
  have h3 := decodeOptionWith_statediff sd hb
  have h4 := decodeOptionWith_h256 th
  simp [encodeBlockTrace, decodeBlockTrace, jlookup, decodeBytes_encodeBytes,
    h1, h2, h3, h4]

theorem decodeVMTraceFields_missing_code (fs : List (String × Json))
    (h : "code" ∉ fs.map Prod.fst) :
    ∀ acc, decodeVMTraceFields fs = .ok acc → acc.1 = none := by
  induction fs with
  | nil =>
    intro acc hacc
    simp only [decodeVMTraceFields] at hacc
    injection hacc with h'
    rw [← h']
  | cons p tl ih =>
    obtain ⟨k, v⟩ := p
    simp only [List.map_cons, List.mem_cons, not_or] at h
    intro acc hacc
    simp only [decodeVMTraceFields] at hacc
    split at hacc
    · exact absurd hacc (by simp)
    · rw [if_neg (fun hk => h.1 hk.symm)] at hacc
      rename_i acc' heq
      by_cases hk2 : k = "ops"
      · rw [if_pos hk2] at hacc
        split at hacc
        · exact absurd hacc (by simp)
        · injection hacc with h'
          rw [← h']
          exact ih h.2 acc' heq
      · rw [if_neg hk2] at hacc
        injection hacc with h'
        rw [← h']
        exact ih h.2 acc' heq

theorem decodeVMTraceFields_missing_ops (fs : List (String × Json))
    (h : "ops" ∉ fs.map Prod.fst) :
    ∀ acc, decodeVMTraceFields fs = .ok acc → acc.2 = none := by
  induction fs with
  | nil =>
    intro acc hacc
    simp only [decodeVMTraceFields] at hacc
    injection hacc with h'
    rw [← h']
  | cons p tl ih =>
    obtain ⟨k, v⟩ := p
    simp only [List.map_cons, List.mem_cons, not_or] at h
    intro acc hacc
    simp only [decodeVMTraceFields] at hacc
    split at hacc
    · exact absurd hacc (by simp)
    · rename_i acc' heq
      by_cases hk1 : k = "code"
      · rw [if_pos hk1] at hacc
        split at hacc
        · exact absurd hacc (by simp)
        · injection hacc with h'
          rw [← h']
          exact ih h.2 acc' heq
      · rw [if_neg hk1, if_neg (fun hk => h.1 hk.symm)] at hacc
        injection hacc with h'
        rw [← h']
        exact ih h.2 acc' heq

theorem decodeVMTrace_missing_code (fs : List (String × Json))
    (h : "code" ∉ fs.map Prod.fst) :
    (decodeVMTrace (Json.obj fs)).isOk = false := by
  simp only [decodeVMTrace]
  split
  · rfl
  · rename_i code ops heq
    have := decodeVMTraceFields_missing_code fs h _ heq
    exact absurd this (by simp)
  · rfl
  · rfl

theorem decodeVMTrace_missing_ops (fs : List (String × Json))
    (h : "ops" ∉ fs.map Prod.fst) :
    (decodeVMTrace (Json.obj fs)).isOk = false := by
  simp only [decodeVMTrace]
  split
  · rfl
  · rename_i code ops heq
    have := decodeVMTraceFields_missing_ops fs h _ heq
    exact absurd this (by simp)
  · rfl
  · rfl

theorem decodeVMOperationFields_missing_pc (fs : List (String × Json))
    (h : "pc" ∉ fs.map Prod.fst) :
    ∀ acc, decodeVMOperationFields fs = .ok acc → acc.1 = none := by
  induction fs with
  | nil =>
    intro acc hacc
    simp only [decodeVMOperationFields] at hacc
    injection hacc with h'
    rw [← h']
  | cons p tl ih =>
    obtain ⟨k, v⟩ := p
    simp only [List.map_cons, List.mem_cons, not_or] at h
    intro acc hacc
    simp only [decodeVMOperationFields] at hacc
    split at hacc
    · exact absurd hacc (by simp)
    · rename_i pc' cost' ex' sub' heq
      have hpc' : pc' = none := by
        have := ih h.2 (pc', cost', ex', sub') heq
        exact this
      rw [if_neg (fun hk => h.1 hk.symm)] at hacc
      by_cases hk2 : k = "cost"
      · rw [if_pos hk2] at hacc
        split at hacc
        · exact absurd hacc (by simp)
        · injection hacc with h'
          rw [← h', hpc']
      · rw [if_neg hk2] at hacc
        by_cases hk3 : k = "ex"
        · rw [if_pos hk3] at hacc
          split at hacc
          · exact absurd hacc (by simp)
          · injection hacc with h'
            rw [← h', hpc']
        · rw [if_neg hk3] at hacc
          by_cases hk4 : k = "sub"
          · rw [if_pos hk4] at hacc
            split at hacc
            · exact absurd hacc (by simp)
            · injection hacc with h'
              rw [← h', hpc']
          · rw [if_neg hk4] at hacc
            injection hacc with h'
            rw [← h', hpc']

theorem decodeVMOperationFields_missing_cost (fs : List (String × Json))
    (h : "cost" ∉ fs.map Prod.fst) :
    ∀ acc, decodeVMOperationFields fs = .ok acc → acc.2.1 = none := by
  induction fs with
  | nil =>
    intro acc hacc
    simp only [decodeVMOperationFields] at hacc
    injection hacc with h'
    rw [← h']
  | cons p tl ih =>
    obtain ⟨k, v⟩ := p
    simp only [List.map_cons, List.mem_cons, not_or] at h
    intro acc hacc
    simp only [decodeVMOperationFields] at hacc
    split at hacc
    · exact absurd hacc (by simp)
    · rename_i pc' cost' ex' sub' heq
      have hcost' : cost' = none := by
        have := ih h.2 (pc', cost', ex', sub') heq
        exact this
      by_cases hk1 : k = "pc"
      · rw [if_pos hk1] at hacc
        split at hacc
        · exact absurd hacc (by simp)
        · injection hacc with h'
          rw [← h', hcost']
      · rw [if_neg hk1, if_neg (fun hk => h.1 hk.symm)] at hacc
        by_cases hk3 : k = "ex"
        · rw [if_pos hk3] at hacc
          split at hacc
          · exact absurd hacc (by simp)
          · injection hacc with h'
            rw [← h', hcost']
        · rw [if_neg hk3] at hacc
          by_cases hk4 : k = "sub"
          · rw [if_pos hk4] at hacc
            split at hacc
            · exact absurd hacc (by simp)
            · injection hacc with h'
              rw [← h', hcost']
          · rw [if_neg hk4] at hacc
            injection hacc with h'
            rw [← h', hcost']

theorem decodeVMOperation_missing_pc (fs : List (String × Json))
    (h : "pc" ∉ fs.map Prod.fst) :
    (decodeVMOperation (Json.obj fs)).isOk = false := by
  simp only [decodeVMOperation]
  split
  · rfl
  · rename_i pc cost ex sub heq
    have := decodeVMOperationFields_missing_pc fs h _ heq
    exact absurd this (by simp)
  · rfl
  · rfl

theorem decodeVMOperation_missing_cost (fs : List (String × Json))
    (h : "cost" ∉ fs.map Prod.fst) :
    (decodeVMOperation (Json.obj fs)).isOk = false := by
  simp only [decodeVMOperation]
  split
  · rfl
  · rename_i pc cost ex sub heq
    have := decodeVMOperationFields_missing_cost fs h _ heq
    exact absurd this (by simp)
  · rfl
  · rfl

theorem decodeVMExecutedOperation_missing_used (fs : List (String × Json))
    (h : "used" ∉ fs.map Prod.fst) :
    (decodeVMExecutedOperation (Json.obj fs)).isOk = false := by
  simp only [decodeVMExecutedOperation, jlookup_eq_none_of_not_mem fs "used" h]
  rfl

theorem decodeVMExecutedOperation_missing_push (fs : List (String × Json))
    (h : "push" ∉ fs.map Prod.fst) :
    (decodeVMExecutedOperation (Json.obj fs)).isOk = false := by
  simp only [decodeVMExecutedOperation]
  split
  · rfl
  · split
    · rfl
    · rw [jlookup_eq_none_of_not_mem fs "push" h]
      rfl

/-- C1: decoding the wire encoding of a valid in-memory value yields the
value back, for `Diff<T>` (given a correct payload codec), `AccountDiff`,
`StateDiff`, `TransactionTrace`, `VMTrace` and `BlockTrace`.  Validity is
the `BTreeMap` representation invariant (strictly ascending keys) of any
contained map; every in-memory value Rust can build satisfies it. -/
theorem C1_roundtrip :
    (∀ (T : Type) (encT : T → Json) (decT : Json → Except DecodeError T),
        (∀ t, decT (encT t) = .ok t) →
        ∀ d : Diff T, decodeDiff decT (encodeDiff encT d) = .ok d)
    ∧ (∀ a : AccountDiff, a.valid → decodeAccountDiff (encodeAccountDiff a) = .ok a)
    ∧ (∀ s : StateDiff, s.valid → decodeStateDiff (encodeStateDiff s) = .ok s)
    ∧ (∀ t : TransactionTrace,
        decodeTransactionTrace (encodeTransactionTrace t) = .ok t)
    ∧ (∀ v : VMTrace, decodeVMTrace (encodeVMTrace v) = .ok v)
    ∧ (∀ b : BlockTrace, b.valid → decodeBlockTrace (encodeBlockTrace b) = .ok b) :=
  ⟨fun _ encT decT h => decodeDiff_encodeDiff encT decT h,
   decodeAccountDiff_encodeAccountDiff,
   decodeStateDiff_encodeStateDiff,
   decodeTransactionTrace_encodeTransactionTrace,
   decodeVMTrace_encodeVMTrace,
   decodeBlockTrace_encodeBlockTrace⟩

/-- C1 witness: the round trip evaluated at concrete values of each
type. -/
theorem C1_roundtrip_witness :
    decodeDiff decodeNat (encodeDiff Json.num (Diff.Born 3)) = .ok (Diff.Born 3)
    ∧ decodeAccountDiff
        (encodeAccountDiff ⟨.Same, .Born 7, .Same, [(1, .Same)]⟩) =
        .ok ⟨.Same, .Born 7, .Same, [(1, .Same)]⟩
    ∧ decodeStateDiff (encodeStateDiff ⟨[(5, ⟨.Same, .Same, .Same, []⟩)]⟩) =
        .ok ⟨[(5, ⟨.Same, .Same, .Same, []⟩)]⟩
    ∧ decodeTransactionTrace
        (encodeTransactionTrace ⟨[0], 0, ⟨1⟩, .Call, none, some "out of gas"⟩) =
        .ok ⟨[0], 0, ⟨1⟩, .Call, none, some "out of gas"⟩
    ∧ decodeVMTrace (encodeVMTrace (deepVMTrace 2)) = .ok (deepVMTrace 2)
    ∧ decodeBlockTrace (encodeBlockTrace ⟨[], none, none, none, some 9⟩) =
        .ok ⟨[], none, none, none, some 9⟩ :=
  ⟨C1_roundtrip.1 Nat Json.num decodeNat (fun _ => rfl) _,
   C1_roundtrip.2.1 _ (by simp [AccountDiff.valid]),
   C1_roundtrip.2.2.1 _ (by simp [StateDiff.valid, AccountDiff.valid]),
   C1_roundtrip.2.2.2.1 _,
   C1_roundtrip.2.2.2.2.1 _,
   C1_roundtrip.2.2.2.2.2 _ (by simp [BlockTrace.valid])⟩

/-- C2: decoding a `Diff` wire value whose tag is not one of the four
characters, or a `Changed` payload missing `from` or `to`, fails with a
schema violation (the only error class the decoder has) and never
produces a `Diff` value. -/
theorem C2_bad_tag_fails :
    (∀ (T : Type) (decT : Json → Except DecodeError T) (s : String), s ≠ "=" →
        ∃ m, decodeDiff decT (Json.str s) = .error (.schemaViolation m))
    ∧ (∀ (T : Type) (decT : Json → Except DecodeError T) (tag : String) (payload : Json),
        tag ≠ "=" → tag ≠ "+" → tag ≠ "-" → tag ≠ "*" →
        ∃ m, decodeDiff decT (Json.obj [(tag, payload)]) = .error (.schemaViolation m))
    ∧ (∀ (T : Type) (decT : Json → Except DecodeError T) (fs : List (String × Json)),
        "from" ∉ fs.map Prod.fst →
        ∃ m, decodeDiff decT (Json.obj [("*", Json.obj fs)]) = .error (.schemaViolation m))
    ∧ (∀ (T : Type) (decT : Json → Except DecodeError T) (fs : List (String × Json)),
        "to" ∉ fs.map Prod.fst →
        ∃ m, decodeDiff decT (Json.obj [("*", Json.obj fs)]) = .error (.schemaViolation m)) := by
  refine ⟨?_, ?_, ?_, ?_⟩
  · intro T decT s hs
    exact ⟨_, decodeDiff_str_unknown decT hs⟩
  · intro T decT tag payload h1 h2 h3 h4
    exact ⟨_, decodeDiff_obj_unknown decT payload h1 h2 h3 h4⟩
  · intro T decT fs h
    apply exists_schemaViolation_of_not_isOk
    rw [decodeDiff_changed_isOk, decodeChangedType_missing_from decT fs h]
    rfl
  · intro T decT fs h
    apply exists_schemaViolation_of_not_isOk
    rw [decodeDiff_changed_isOk]
    exact decodeChangedType_missing_to decT fs h

/-- C2 witness: the failures evaluated at concrete wire values. -/
theorem C2_bad_tag_fails_witness :
    (∃ m, decodeDiff decodeNat (Json.str "x") = .error (.schemaViolation m))
    ∧ (∃ m, decodeDiff decodeNat (Json.obj [("?", Json.null)]) =
        .error (.schemaViolation m))
    ∧ (∃ m, decodeDiff decodeNat (Json.obj [("*", Json.obj [])]) =
        .error (.schemaViolation m))
    ∧ (∃ m, decodeDiff decodeNat (Json.obj [("*", Json.obj [("from", Json.num 1)])]) =
        .error (.schemaViolation m)) :=
  ⟨C2_bad_tag_fails.1 Nat decodeNat "x" (by decide),
   C2_bad_tag_fails.2.1 Nat decodeNat "?" Json.null
     (by decide) (by decide) (by decide) (by decide),
   C2_bad_tag_fails.2.2.1 Nat decodeNat [] (by decide),
   C2_bad_tag_fails.2.2.2 Nat decodeNat [("from", Json.num 1)] (by decide)⟩

/-- C3 (amended): serialization of `TransactionTrace` is total — the
derived serializer checks no invariant and has no error type; a value
with both `result` and `error` set encodes to a wire object carrying
both fields. -/
theorem C3_encode_total (ta : List Nat) (st : Nat) (a : Action) (ty : ActionType)
    (r : Res) (e : String) :
    encodeTransactionTrace ⟨ta, st, a, ty, some r, some e⟩ =
      Json.obj
        [("traceAddress", Json.arr (ta.map Json.num)),
         ("subtraces", Json.num st),
         ("action", Json.num a.payload),
         ("type", encodeActionType ty),
         ("result", Json.num r.payload),
         ("error", Json.str e)] := rfl

/-- C3 counterexample: encoding a `TransactionTrace` with both `result`
and `error` set does not fail — it produces this wire value. -/
theorem C3_counterexample :
    encodeTransactionTrace ⟨[], 0, ⟨0⟩, .Call, some ⟨1⟩, some "err"⟩ =
      Json.obj
        [("traceAddress", Json.arr []),
         ("subtraces", Json.num 0),
         ("action", Json.num 0),
         ("type", Json.str "call"),
         ("result", Json.num 1),
         ("error", Json.str "err")] := rfl

/-- C4 (amended): the decoder accepts a wire object in which both
`result` and `error` are non-null, yielding a `TransactionTrace` with
both fields set — it rejects nothing and prefers neither. -/
theorem C4_decode_accepts_both (t : TransactionTrace)
    (_hr : t.result.isSome = true) (_he : t.error.isSome = true) :
    decodeTransactionTrace (encodeTransactionTrace t) = .ok t :=
  decodeTransactionTrace_encodeTransactionTrace t

/-- C4 witness: the acceptance evaluated at a concrete both-set value. -/
theorem C4_decode_accepts_both_witness :
    ((⟨[], 0, ⟨0⟩, .Call, some ⟨1⟩, some "err"⟩ : TransactionTrace).result.isSome = true)
    ∧ ((⟨[], 0, ⟨0⟩, .Call, some ⟨1⟩, some "err"⟩ : TransactionTrace).error.isSome = true)
    ∧ decodeTransactionTrace
        (encodeTransactionTrace ⟨[], 0, ⟨0⟩, .Call, some ⟨1⟩, some "err"⟩) =
        .ok ⟨[], 0, ⟨0⟩, .Call, some ⟨1⟩, some "err"⟩ :=
  ⟨rfl, rfl, C4_decode_accepts_both ⟨[], 0, ⟨0⟩, .Call, some ⟨1⟩, some "err"⟩ rfl rfl⟩

/-- C4 counterexample: a wire object with both `result` and `error`
non-null decodes successfully (to a value with both fields set) instead
of failing. -/
theorem C4_counterexample :
    decodeTransactionTrace
      (Json.obj
        [("traceAddress", Json.arr []),
         ("subtraces", Json.num 0),
         ("action", Json.num 0),
         ("type", Json.str "call"),
         ("result", Json.num 1),
         ("error", Json.str "boom")]) =
      .ok ⟨[], 0, ⟨0⟩, .Call, some ⟨1⟩, some "boom"⟩ := rfl

/-- C5 (amended): the decoder enforces no maximum nesting depth — a
`VMTrace` wire value of any sub-trace nesting depth decodes
successfully, and no depth-related error exists in the code. -/
theorem C5_no_depth_limit (n : Nat) :
    vmTraceDepth (deepVMTrace n) = n + 1
    ∧ decodeVMTrace (encodeVMTrace (deepVMTrace n)) = .ok (deepVMTrace n) :=
  ⟨vmTraceDepth_deepVMTrace n, decodeVMTrace_encodeVMTrace (deepVMTrace n)⟩

/-- C5 counterexample: there is no depth bound past which decoding a
`VMTrace` fails — for every candidate maximum `D`, the trace of depth
`D + 1` still decodes. -/
theorem C5_counterexample :
    (∃ D : Nat, ∀ t : VMTrace, D < vmTraceDepth t →
        (decodeVMTrace (encodeVMTrace t)).isOk = false) = False := by
  apply eq_false
  rintro ⟨D, h⟩
  have hd := h (deepVMTrace D) (by rw [vmTraceDepth_deepVMTrace]; omega)
  rw [decodeVMTrace_encodeVMTrace] at hd
  exact absurd hd (by simp [Except.isOk, Except.toBool])

/-- C6: two StateDiff maps built by inserting the same key-distinct
address/account pairs in different orders are the same value, their
encodings are the same wire value (hence byte-identical rendered text),
and the built map lists its keys in strictly ascending order; the same
insertion-order independence holds for the storage map inside an
`AccountDiff`. -/
theorem C6_ordering_determinism :
    (∀ (V : Type) [DecidableEq V] (l1 l2 : List (Nat × V)), l1.Perm l2 →
        (l1.map Prod.fst).Nodup → mapFromList l1 = mapFromList l2)
    ∧ (∀ l1 l2 : List (Nat × AccountDiff), l1.Perm l2 → (l1.map Prod.fst).Nodup →
        StateDiff.mk (mapFromList l1) = StateDiff.mk (mapFromList l2)
        ∧ encodeStateDiff ⟨mapFromList l1⟩ = encodeStateDiff ⟨mapFromList l2⟩
        ∧ jRender (encodeStateDiff ⟨mapFromList l1⟩) =
            jRender (encodeStateDiff ⟨mapFromList l2⟩))
    ∧ (∀ l : List (Nat × AccountDiff), (mapFromList l).Pairwise keyLT)
    ∧ (∀ s1 s2 : List (Nat × Diff H256), s1.Perm s2 → (s1.map Prod.fst).Nodup →
        mapFromList s1 = mapFromList s2) := by
  refine ⟨fun V _ l1 l2 hp hnd => mapFromList_perm hp hnd, ?_,
    fun l => pairwise_mapFromList l,
    fun s1 s2 hp hnd => mapFromList_perm hp hnd⟩
  intro l1 l2 hp hnd
  have he := mapFromList_perm hp hnd
  exact ⟨by rw [he], by rw [he], by rw [he]⟩

/-- C6 witness: the determinism evaluated on a two-entry map built in the
two possible orders. -/
theorem C6_ordering_determinism_witness :
    ([(2, (⟨.Born 1, .Same, .Same, []⟩ : AccountDiff)), (1, ⟨.Same, .Same, .Same, []⟩)].Perm
        [(1, (⟨.Same, .Same, .Same, []⟩ : AccountDiff)), (2, ⟨.Born 1, .Same, .Same, []⟩)])
    ∧ ([(2, (⟨.Born 1, .Same, .Same, []⟩ : AccountDiff)), (1, ⟨.Same, .Same, .Same, []⟩)].map
        Prod.fst).Nodup
    ∧ mapFromList
        [(2, (⟨.Born 1, .Same, .Same, []⟩ : AccountDiff)), (1, ⟨.Same, .Same, .Same, []⟩)] =
      mapFromList
        [(1, (⟨.Same, .Same, .Same, []⟩ : AccountDiff)), (2, ⟨.Born 1, .Same, .Same, []⟩)] :=
  ⟨by decide, by decide,
   C6_ordering_determinism.1 AccountDiff
     [(2, ⟨.Born 1, .Same, .Same, []⟩), (1, ⟨.Same, .Same, .Same, []⟩)]
     [(1, ⟨.Same, .Same, .Same, []⟩), (2, ⟨.Born 1, .Same, .Same, []⟩)]
     (by decide) (by decide)⟩

/-- C7: a `BlockTrace` wire object carrying only `output` and `trace`
decodes with `vm_trace`, `state_diff` and `transaction_hash` all `None`,
and re-encoding that value emits `output` and `trace` populated with the
three other keys explicitly null (the configured convention: serde emits
`None` as null). -/
theorem C7_partial_blocktrace (out : Bytes) (ts : List TransactionTrace) :
    decodeBlockTrace
        (Json.obj
          [("output", encodeBytes out),
           ("trace", Json.arr (ts.map encodeTransactionTrace))]) =
      .ok ⟨out, some ts, none, none, none⟩
    ∧ encodeBlockTrace ⟨out, some ts, none, none, none⟩ =
        Json.obj
          [("output", encodeBytes out),
           ("trace", Json.arr (ts.map encodeTransactionTrace)),
           ("vmTrace", Json.null),
           ("stateDiff", Json.null),
           ("transactionHash", Json.null)] := by
  constructor
  · simp [decodeBlockTrace, jlookup, decodeBytes_encodeBytes, decodeOptionWith_arr,
      decodeTransactionTraceList_encoded]
  · rfl

/-- C8 (amended): only the `Option`-typed fields (`ex`, `sub`, `mem`,
`store`) default — to `None` — when absent from the wire; every other
field, including the `push` sequence and the `used` integer, is required,
and decoding fails when any required field (`pc`, `cost`, `code`, `ops`,
`used`, `push`) is entirely missing. -/
theorem C8_absent_field_semantics :
    (∀ pc cost : Nat,
        decodeVMOperation (Json.obj [("pc", Json.num pc), ("cost", Json.num cost)]) =
          .ok (.mk pc cost none none))
    ∧ (∀ (used : Nat) (push : List U256),
        decodeVMExecutedOperation
            (Json.obj [("used", Json.num used), ("push", Json.arr (push.map encodeU256))]) =
          .ok ⟨used, push, none, none⟩)
    ∧ (∀ fs : List (String × Json), "pc" ∉ fs.map Prod.fst →
        (decodeVMOperation (Json.obj fs)).isOk = false)
    ∧ (∀ fs : List (String × Json), "cost" ∉ fs.map Prod.fst →
        (decodeVMOperation (Json.obj fs)).isOk = false)
    ∧ (∀ fs : List (String × Json), "code" ∉ fs.map Prod.fst →
        (decodeVMTrace (Json.obj fs)).isOk = false)
    ∧ (∀ fs : List (String × Json), "ops" ∉ fs.map Prod.fst →
        (decodeVMTrace (Json.obj fs)).isOk = false)
    ∧ (∀ fs : List (String × Json), "used" ∉ fs.map Prod.fst →
        (decodeVMExecutedOperation (Json.obj fs)).isOk = false)
    ∧ (∀ fs : List (String × Json), "push" ∉ fs.map Prod.fst →
        (decodeVMExecutedOperation (Json.obj fs)).isOk = false) := by
  refine ⟨?_, ?_, decodeVMOperation_missing_pc, decodeVMOperation_missing_cost,
    decodeVMTrace_missing_code, decodeVMTrace_missing_ops,
    decodeVMExecutedOperation_missing_used, decodeVMExecutedOperation_missing_push⟩
  · intro pc cost
    simp [decodeVMOperation, decodeVMOperationFields, decodeNat]
  · intro used push
    simp [decodeVMExecutedOperation, jlookup, decodeNat, decodeU256List_encoded]

/-- C8 witness: the absent-field behaviour evaluated at concrete wire
objects. -/
theorem C8_absent_field_semantics_witness :
    decodeVMOperation (Json.obj [("pc", Json.num 4), ("cost", Json.num 2)]) =
      .ok (.mk 4 2 none none)
    ∧ (decodeVMOperation (Json.obj [("cost", Json.num 0)])).isOk = false
    ∧ (decodeVMOperation (Json.obj [("pc", Json.num 0)])).isOk = false
    ∧ (decodeVMTrace (Json.obj [])).isOk = false
    ∧ (decodeVMExecutedOperation (Json.obj [("push", Json.arr [])])).isOk = false
    ∧ (decodeVMExecutedOperation (Json.obj [("used", Json.num 0)])).isOk = false :=
  ⟨C8_absent_field_semantics.1 4 2,
   C8_absent_field_semantics.2.2.1 [("cost", Json.num 0)] (by decide),
   C8_absent_field_semantics.2.2.2.1 [("pc", Json.num 0)] (by decide),
   C8_absent_field_semantics.2.2.2.2.1 [] (by decide),
   C8_absent_field_semantics.2.2.2.2.2.2.1 [("push", Json.arr [])] (by decide),
   C8_absent_field_semantics.2.2.2.2.2.2.2 [("used", Json.num 0)] (by decide)⟩

/-- C8 counterexample: a missing `push` sequence does not default to the
empty sequence — decoding fails on its absence. -/
theorem C8_counterexample :
    decodeVMExecutedOperation (Json.obj [("used", Json.num 0)]) =
      .error (.schemaViolation "missing field push") := rfl

/-- C10: the wire shape of each `Diff` variant — `Same` is the bare tag
string (no object, no payload), `Born`/`Died` are single-key objects, and
`Changed` nests a `from`/`to` object — and decoding each of these shapes
yields the corresponding variant. -/
theorem C10_diff_wire_shapes :
    (∀ (T : Type) (encT : T → Json), encodeDiff encT Diff.Same = Json.str "=")
    ∧ (∀ (T : Type) (encT : T → Json) (v : T),
        encodeDiff encT (.Born v) = Json.obj [("+", encT v)])
    ∧ (∀ (T : Type) (encT : T → Json) (v : T),
        encodeDiff encT (.Died v) = Json.obj [("-", encT v)])
    ∧ (∀ (T : Type) (encT : T → Json) (c : ChangedType T),
        encodeDiff encT (.Changed c) =
          Json.obj [("*", Json.obj [("from", encT c.«from»), ("to", encT c.«to»)])])
    ∧ (∀ (T : Type) (decT : Json → Except DecodeError T),
        decodeDiff decT (Json.str "=") = .ok .Same)
    ∧ (∀ (T : Type) (decT : Json → Except DecodeError T) (j : Json) (v : T),
        decT j = .ok v → decodeDiff decT (Json.obj [("+", j)]) = .ok (.Born v))
    ∧ (∀ (T : Type) (decT : Json → Except DecodeError T) (j : Json) (v : T),
        decT j = .ok v → decodeDiff decT (Json.obj [("-", j)]) = .ok (.Died v))
    ∧ (∀ (T : Type) (decT : Json → Except DecodeError T) (fj tj : Json) (fv tv : T),
        decT fj = .ok fv → decT tj = .ok tv →
        decodeDiff decT (Json.obj [("*", Json.obj [("from", fj), ("to", tj)])]) =
          .ok (.Changed ⟨fv, tv⟩)) := by
  refine ⟨fun _ _ => rfl, fun _ _ _ => rfl, fun _ _ _ => rfl, fun _ _ _ => rfl,
    fun _ _ => rfl, ?_, ?_, ?_⟩
  · intro T decT j v h
    simp [decodeDiff, h]
  · intro T decT j v h
    simp [decodeDiff, h]
  · intro T decT fj tj fv tv hf ht
    simp [decodeDiff, decodeChangedType, jlookup, hf, ht]

/-- C10 witness: the wire shapes evaluated at a concrete payload codec. -/
theorem C10_diff_wire_shapes_witness :
    decodeNat (Json.num 5) = .ok 5
    ∧ decodeDiff decodeNat (Json.obj [("+", Json.num 5)]) = .ok (.Born 5)
    ∧ decodeDiff decodeNat (Json.obj [("-", Json.num 5)]) = .ok (.Died 5)
    ∧ decodeDiff decodeNat
        (Json.obj [("*", Json.obj [("from", Json.num 1), ("to", Json.num 2)])]) =
        .ok (.Changed ⟨1, 2⟩) :=
  ⟨rfl,
   C10_diff_wire_shapes.2.2.2.2.2.1 Nat decodeNat (Json.num 5) 5 rfl,
   C10_diff_wire_shapes.2.2.2.2.2.2.1 Nat decodeNat (Json.num 5) 5 rfl,
   C10_diff_wire_shapes.2.2.2.2.2.2.2 Nat decodeNat (Json.num 1) (Json.num 2) 1 2 rfl rfl⟩

/-- Serialization of the request list `[Trace, VmTrace, StateDiff]`
yields exactly the three lowercase-camel wire tags, in order, matching
the source's serialization test.  (`TraceType` derives only `Serialize`;
no decoding direction exists in the code.) -/
theorem traceTypeList_tags :
    encodeTraceTypeList [TraceType.Trace, TraceType.VmTrace, TraceType.StateDiff] =
      Json.arr [Json.str "trace", Json.str "vmTrace", Json.str "stateDiff"] := rfl

end TraceModel
